import Mathlib

/-!
Verification of the QA Report Helper data pipeline.

This file gives a shallow embedding of the core data-pipeline functions of
the repository (`data_processor.py`, `data_validator.py`,
`report_generator.py`) and proves theorems about them.

Modelling conventions:
* Python `datetime.date` values are `Date` (year/month/day as `Nat`).
* Spreadsheet cell values are `CellValue`: Python `None`, strings, ints,
  dates and datetimes.  Floating-point cell values are not modelled; the
  Excel serial-number fallback of `parse_date` is modelled with exact
  rational arithmetic in place of binary floating point.
* Python dicts holding records are association lists `List (String × CellValue)`
  with first-occurrence lookup and in-place update / append-on-missing,
  matching insertion-ordered `dict` semantics.
* `str.strip`, `str.lower`, `str.title` and `datetime.strptime` (for the
  format directives the code uses) are modelled character-exactly for ASCII.
* `difflib` similarity is modelled by the Ratcliff-Obershelp matching used
  by `SequenceMatcher.ratio`, with exact rationals in place of floats; the
  autojunk heuristic (active only for sequences of length ≥ 200) is not
  modelled.
-/

namespace QAReport

/-! ### Calendar dates -/

structure Date where
  year : Nat
  month : Nat
  day : Nat
deriving DecidableEq, Repr

def Date.lt (a b : Date) : Prop :=
  a.year < b.year ∨ (a.year = b.year ∧ (a.month < b.month ∨ (a.month = b.month ∧ a.day < b.day)))

def Date.le (a b : Date) : Prop :=
  Date.lt a b ∨ a = b

instance (a b : Date) : Decidable (Date.lt a b) :=
  inferInstanceAs (Decidable (_ ∨ _))

instance (a b : Date) : Decidable (Date.le a b) :=
  inferInstanceAs (Decidable (_ ∨ _))

def isLeap (y : Nat) : Bool :=
  y % 4 = 0 && (y % 100 ≠ 0 || y % 400 = 0)

def daysInMonth (y m : Nat) : Nat :=
  if m = 2 then (if isLeap y then 29 else 28)
  else if m = 4 ∨ m = 6 ∨ m = 9 ∨ m = 11 then 30
  else 31

/-! ### Python-style string primitives (ASCII-exact models) -/

def pyLowerList (cs : List Char) : List Char := cs.map Char.toLower

def pyLower (s : String) : String := ⟨pyLowerList s.data⟩

/-- Remove trailing whitespace. -/
def rstripWS : List Char -> List Char
  | [] => []
  | c :: cs =>
    match rstripWS cs with
    | [] => if c.isWhitespace then [] else [c]
    | r => c :: r

def pyStripList (cs : List Char) : List Char :=
  rstripWS (cs.dropWhile Char.isWhitespace)

def pyStrip (s : String) : String := ⟨pyStripList s.data⟩

def pyStartsWith (s p : String) : Bool := p.data.isPrefixOf s.data

/-- Model of Python `str.title`: uppercase the first character of each maximal
run of letters, lowercase the rest (ASCII letters). -/
def pyTitleList : Bool → List Char → List Char
  | _, [] => []
  | prevCased, c :: cs =>
    if c.isAlpha then
      (if prevCased then c.toLower else c.toUpper) :: pyTitleList true cs
    else
      c :: pyTitleList false cs

def pyTitle (s : String) : String := ⟨pyTitleList false s.data⟩

def pad2 (n : Nat) : String := if n < 10 then "0" ++ toString n else toString n

def pad4 (n : Nat) : String :=
  if n < 10 then "000" ++ toString n
  else if n < 100 then "00" ++ toString n
  else if n < 1000 then "0" ++ toString n
  else toString n

/-! ### Cell values (Python scalars as they occur in records) -/

inductive CellValue where
  | none
  | str (s : String)
  | intV (n : Int)
  | dateV (d : Date)
  | dtV (d : Date) (hh mi ss : Nat)
deriving DecidableEq, Repr

/-- Model of Python `str(value)` for the cell values we model. -/
def CellValue.pyStr : CellValue → String
  | .none => "None"
  | .str s => s
  | .intV n => toString n
  | .dateV d => pad4 d.year ++ "-" ++ pad2 d.month ++ "-" ++ pad2 d.day
  | .dtV d hh mi ss =>
      pad4 d.year ++ "-" ++ pad2 d.month ++ "-" ++ pad2 d.day ++ " " ++
      pad2 hh ++ ":" ++ pad2 mi ++ ":" ++ pad2 ss

/-- Model of Python truthiness for the cell values we model. -/
def CellValue.truthy : CellValue → Bool
  | .none => false
  | .str s => s ≠ ""
  | .intV n => n ≠ 0
  | .dateV _ => true
  | .dtV _ _ _ _ => true

/-! ### Records: insertion-ordered string-keyed dicts -/

abbrev Record := List (String × CellValue)

/-- First-occurrence lookup, like Python `dict.__getitem__`. -/
def getVal : Record → String → Option CellValue
  | [], _ => Option.none
  | p :: rest, k => if p.1 = k then Option.some p.2 else getVal rest k

/-- Python `record.get(k)` (default `None`). -/
def getNone (r : Record) (k : String) : CellValue := (getVal r k).getD CellValue.none

/-- Python `record.get(k, d)`. -/
def getD (r : Record) (k : String) (d : CellValue) : CellValue := (getVal r k).getD d

/-- Python `record[k] = v`: replace the existing entry in place, else append. -/
def setVal : Record → String → CellValue → Record
  | [], k, v => [(k, v)]
  | p :: rest, k, v => if p.1 = k then (k, v) :: rest else p :: setVal rest k v

/-! ### `DataProcessor.parse_date`: strptime model -/

/-- Format directives appearing in the `date_formats` list of `parse_date`. -/
inductive Fmt where
  | lit (c : Char)
  | Y4
  | Y2
  | Mo
  | Dy
  | Babbr
  | Bfull
  | Hh
  | Mi
  | Ss
deriving DecidableEq, Repr

def digitVal (c : Char) : Option Nat :=
  if c.isDigit then Option.some (c.toNat - 48) else Option.none

/-- Match exactly `k` digits (as `%Y`, `%y` do). -/
def matchDigits : Nat → List Char → Option (Nat × List Char)
  | 0, cs => Option.some (0, cs)
  | k + 1, [] => (fun _ => Option.none) k
  | k + 1, c :: cs =>
    match digitVal c with
    | Option.some d =>
      match matchDigits k cs with
      | Option.some (v, rest) => Option.some (d * 10 ^ k + v, rest)
      | Option.none => Option.none
    | Option.none => Option.none

/-- Match one or two digits the way CPython strptime regexes do: a two-digit
match is preferred when its value passes `valid2`, otherwise a single digit
passing `valid1` is taken. -/
def matchNum2 (valid2 valid1 : Nat → Bool) (cs : List Char) : Option (Nat × List Char) :=
  match cs with
  | [] => Option.none
  | c1 :: rest1 =>
    match digitVal c1 with
    | Option.none => Option.none
    | Option.some a =>
      match rest1 with
      | c2 :: rest2 =>
        match digitVal c2 with
        | Option.some b =>
          if valid2 (10 * a + b) then Option.some (10 * a + b, rest2)
          else if valid1 a then Option.some (a, rest1)
          else Option.none
        | Option.none => if valid1 a then Option.some (a, rest1) else Option.none
      | [] => if valid1 a then Option.some (a, rest1) else Option.none

def monthAbbrevs : List (String × Nat) :=
  [("jan", 1), ("feb", 2), ("mar", 3), ("apr", 4), ("may", 5), ("jun", 6),
   ("jul", 7), ("aug", 8), ("sep", 9), ("oct", 10), ("nov", 11), ("dec", 12)]

def monthFulls : List (String × Nat) :=
  [("september", 9), ("february", 2), ("november", 11), ("december", 12),
   ("january", 1), ("october", 10), ("august", 8), ("march", 3), ("april", 4),
   ("june", 6), ("july", 7), ("may", 5)]

/-- Case-insensitive month-name match (names are lowercase; input lowered). -/
def matchMonthName : List (String × Nat) → List Char → Option (Nat × List Char)
  | [], _ => Option.none
  | (nm, v) :: rest, cs =>
    let k := nm.data.length
    let pre := cs.take k
    if pre.length = k ∧ pyLowerList pre = nm.data then Option.some (v, cs.drop k)
    else matchMonthName rest cs

/-- Partially parsed date fields. -/
structure PD where
  y : Option Nat
  mo : Option Nat
  dy : Option Nat
deriving Repr

def PD.empty : PD := ⟨Option.none, Option.none, Option.none⟩

/-- Run a strptime format against the input; the whole input must be consumed
(strptime raises on unconverted trailing data). -/
def runFmt : List Fmt → List Char → PD → Option PD
  | [], [], pd => Option.some pd
  | [], _ :: _, _ => Option.none
  | f :: fs, cs, pd =>
    match f with
    | .lit c =>
      match cs with
      | x :: xs => if x = c then runFmt fs xs pd else Option.none
      | [] => Option.none
    | .Y4 =>
      match matchDigits 4 cs with
      | Option.some (v, rest) => runFmt fs rest ⟨Option.some v, pd.mo, pd.dy⟩
      | Option.none => Option.none
    | .Y2 =>
      match matchDigits 2 cs with
      | Option.some (v, rest) =>
          runFmt fs rest ⟨Option.some (if v ≤ 68 then 2000 + v else 1900 + v), pd.mo, pd.dy⟩
      | Option.none => Option.none
    | .Mo =>
      match matchNum2 (fun v => 1 ≤ v && v ≤ 12) (fun v => 1 ≤ v && v ≤ 9) cs with
      | Option.some (v, rest) => runFmt fs rest ⟨pd.y, Option.some v, pd.dy⟩
      | Option.none => Option.none
    | .Dy =>
      match matchNum2 (fun v => 1 ≤ v && v ≤ 31) (fun v => 1 ≤ v && v ≤ 9) cs with
      | Option.some (v, rest) => runFmt fs rest ⟨pd.y, pd.mo, Option.some v⟩
      | Option.none => Option.none
    | .Babbr =>
      match matchMonthName monthAbbrevs cs with
      | Option.some (v, rest) => runFmt fs rest ⟨pd.y, Option.some v, pd.dy⟩
      | Option.none => Option.none
    | .Bfull =>
      match matchMonthName monthFulls cs with
      | Option.some (v, rest) => runFmt fs rest ⟨pd.y, Option.some v, pd.dy⟩
      | Option.none => Option.none
    | .Hh =>
      match matchNum2 (fun v => v ≤ 23) (fun _ => true) cs with
      | Option.some (_, rest) => runFmt fs rest pd
      | Option.none => Option.none
    | .Mi =>
      match matchNum2 (fun v => v ≤ 59) (fun _ => true) cs with
      | Option.some (_, rest) => runFmt fs rest pd
      | Option.none => Option.none
    | .Ss =>
      match matchNum2 (fun v => v ≤ 61) (fun _ => true) cs with
      | Option.some (_, rest) => runFmt fs rest pd
      | Option.none => Option.none

/-- strptime restricted to producing the `.date()` part, with the calendar
validation `datetime.date` performs. -/
def strptimeDate (fmt : List Fmt) (cs : List Char) : Option Date :=
  match runFmt fmt cs PD.empty with
  | Option.some pd =>
    match pd.y, pd.mo, pd.dy with
    | Option.some y, Option.some m, Option.some d =>
      if 1 ≤ y ∧ 1 ≤ d ∧ d ≤ daysInMonth y m then Option.some ⟨y, m, d⟩ else Option.none
    | _, _, _ => Option.none
  | Option.none => Option.none

def fmtIsoDateTime : List Fmt :=
  [.Y4, .lit '-', .Mo, .lit '-', .Dy, .lit ' ', .Hh, .lit ':', .Mi, .lit ':', .Ss]

def fmtIso : List Fmt := [.Y4, .lit '-', .Mo, .lit '-', .Dy]

/-- The `date_formats` list of `DataProcessor.parse_date`, in source order. -/
def date_formats : List (List Fmt) :=
  [fmtIsoDateTime,
   fmtIso,
   [.Dy, .lit '-', .Babbr, .lit '-', .Y2],
   [.Dy, .lit '-', .Bfull, .lit '-', .Y2],
   [.Dy, .lit '-', .Babbr, .lit '-', .Y4],
   [.Dy, .lit '-', .Bfull, .lit '-', .Y4],
   [.Dy, .lit '/', .Babbr, .lit '/', .Y2],
   [.Dy, .lit '/', .Bfull, .lit '/', .Y2],
   [.Dy, .lit '/', .Babbr, .lit '/', .Y4],
   [.Dy, .lit '/', .Bfull, .lit '/', .Y4],
   [.Dy, .lit '.', .Babbr, .lit '.', .Y2],
   [.Dy, .lit '.', .Bfull, .lit '.', .Y2],
   [.Dy, .lit '-', .Mo, .lit '-', .Y4],
   [.Dy, .lit '/', .Mo, .lit '/', .Y4],
   [.Dy, .lit '-', .Mo, .lit '-', .Y2],
   [.Dy, .lit '/', .Mo, .lit '/', .Y2],
   [.Mo, .lit '/', .Dy, .lit '/', .Y4],
   [.Mo, .lit '-', .Dy, .lit '-', .Y4],
   [.Mo, .lit '/', .Dy, .lit '/', .Y2],
   [.Mo, .lit '-', .Dy, .lit '-', .Y2]]

def tryFormats : List (List Fmt) → List Char → Option Date
  | [], _ => Option.none
  | f :: fs, cs =>
    match strptimeDate f cs with
    | Option.some d => Option.some d
    | Option.none => tryFormats fs cs

/-! ### Excel serial-number fallback -/

/-- Proleptic-Gregorian calendar date from a 1-based ordinal
(`date(1,1,1)` is ordinal 1), defined for the `datetime` range
1 .. 3652059; `None` models the `OverflowError` outside it. -/
def dateFromOrdinal (n : Int) : Option Date :=
  if 1 ≤ n ∧ n ≤ 3652059 then
    let z : Nat := n.toNat + 305
    let era := z / 146097
    let doe := z % 146097
    let yoe := (doe - doe / 1460 + doe / 36524 - doe / 146096) / 365
    let y := yoe + era * 400
    let doy := doe - (365 * yoe + yoe / 4 - yoe / 100)
    let mp := (5 * doy + 2) / 153
    let d := doy - (153 * mp + 2) / 5 + 1
    let m := if mp < 10 then mp + 3 else mp - 9
    Option.some (if m ≤ 2 then ⟨y + 1, m, d⟩ else ⟨y, m, d⟩)
  else Option.none

def natFromDigits (cs : List Char) : Nat :=
  cs.foldl (fun acc c => acc * 10 + (c.toNat - 48)) 0

/-- Model of Python `float(s)` restricted to strings made of digits, `.` and
`-` (the only shapes that reach this call), with exact rational value. -/
def parsePyFloat (s : String) : Option ℚ :=
  let cs := s.data
  let (neg, cs2) :=
    match cs with
    | '-' :: rest => (true, rest)
    | _ => (false, cs)
  if cs2.any (fun c => c = '-') then Option.none
  else
    let intPart := cs2.takeWhile (fun c => c ≠ '.')
    let rest := cs2.dropWhile (fun c => c ≠ '.')
    match rest with
    | [] =>
      if intPart ≠ [] ∧ intPart.all Char.isDigit then
        Option.some ((if neg then -1 else 1) * (natFromDigits intPart : ℚ))
      else Option.none
    | _ :: frac =>
      if frac.any (fun c => c = '.') then Option.none
      else if intPart ++ frac = [] then Option.none
      else if intPart.all Char.isDigit ∧ frac.all Char.isDigit then
        Option.some ((if neg then -1 else 1) *
          ((natFromDigits intPart : ℚ) + (natFromDigits frac : ℚ) / (10 ^ frac.length : ℚ)))
      else Option.none

/-- Ordinal of 1900-01-01, the serial-number base date. -/
def ord1900 : Int := 693596

/-- The Excel serial-number fallback branch of `parse_date`. -/
def excelSerialParse (s : String) : Option Date :=
  let stripped := s.data.filter (fun c => c ≠ '.' ∧ c ≠ '-')
  if stripped ≠ [] ∧ stripped.all Char.isDigit then
    match parsePyFloat s with
    | Option.some q =>
      let q2 := if (59 : ℚ) < q then q - 1 else q
      dateFromOrdinal (ord1900 + Int.floor (q2 - 1))
    | Option.none => Option.none
  else Option.none

/-! ### `DataProcessor.parse_date` -/

def parse_date (v : CellValue) : Option Date :=
  if v = CellValue.none ∨ pyStrip (CellValue.pyStr v) = "" ∨
      pyLower (pyStrip (CellValue.pyStr v)) = "nan" then Option.none
  else
    match v with
    | .dtV d _ _ _ => Option.some d
    | .dateV d => Option.some d
    | _ =>
      let dateStr := pyStrip (CellValue.pyStr v)
      let special :=
        if dateStr.data.any (fun c => c = ' ') ∧ dateStr.data.any (fun c => c = ':') then
          strptimeDate fmtIso (dateStr.data.takeWhile (fun c => c ≠ ' '))
        else Option.none
      match special with
      | Option.some d => Option.some d
      | Option.none =>
        match tryFormats date_formats dateStr.data with
        | Option.some d => Option.some d
        | Option.none => excelSerialParse dateStr

/-! ### `DataProcessor.normalize` and date-window filters -/

/-- `DataProcessor.normalize`: `str(value).strip().lower()` or `""` for `None`. -/
def normalize (v : CellValue) : String :=
  if v = CellValue.none then "" else pyLower (pyStrip (CellValue.pyStr v))

/-- The earliest-date fold inside `filter_records_mtd`. -/
def earliestDate (c : String) (records : List Record) : Option Date :=
  records.foldl (fun e r =>
    match parse_date (getNone r c) with
    | Option.some d =>
      match e with
      | Option.none => Option.some d
      | Option.some e0 => if Date.lt d e0 then Option.some d else Option.some e0
    | Option.none => e) Option.none

/-- `DataProcessor.filter_records_mtd`; `dc` is `self.date_column`
(`Option.none` or `some ""` are both falsy in the Python guard). -/
def filter_records_mtd (dc : Option String) (records : List Record) (selected : Date) :
    List Record :=
  match dc with
  | Option.none => []
  | Option.some c =>
    if c = "" then []
    else
      match earliestDate c records with
      | Option.none => []
      | Option.some e =>
        let mtdStart : Date := ⟨e.year, e.month, 1⟩
        records.filter (fun r =>
          match parse_date (getNone r c) with
          | Option.some d => decide (Date.le mtdStart d) && decide (Date.le d selected)
          | Option.none => false)

/-- `DataProcessor.filter_records_by_date`. -/
def filter_records_by_date (dc : Option String) (records : List Record) (target : Date) :
    List Record :=
  match dc with
  | Option.none => []
  | Option.some c =>
    if c = "" then []
    else
      records.filter (fun r =>
        match parse_date (getNone r c) with
        | Option.some d => decide (d = target)
        | Option.none => false)

/-! ### Ordered counters (Python `Counter` / `defaultdict` over dict order) -/

/-- `Counter[v] += 1`: increment the existing entry in place, else append. -/
def counterAdd {α : Type} [DecidableEq α] : List (α × Nat) → α → List (α × Nat)
  | [], v => [(v, 1)]
  | p :: rest, v => if p.1 = v then (p.1, p.2 + 1) :: rest else p :: counterAdd rest v

def counterOf {α : Type} [DecidableEq α] (l : List α) : List (α × Nat) :=
  l.foldl counterAdd []

/-- Stable insertion placing `x` before the first element strictly below it. -/
def insertDescBy {α : Type} (lt : α → α → Bool) (x : α) : List α → List α
  | [] => [x]
  | y :: ys => if lt y x then x :: y :: ys else y :: insertDescBy lt x ys

/-- Model of Python stable `sort(key=…, reverse=True)`. -/
def sortDescBy {α : Type} (lt : α → α → Bool) (l : List α) : List α :=
  l.foldl (fun acc x => insertDescBy lt x acc) []

/-! ### `ReportGenerator` -/

/-- Round half to even, as Python float formatting does. -/
def roundHalfEven (x : ℚ) : Int :=
  let f := Int.floor x
  let r := x - f
  if r < 1/2 then f
  else if 1/2 < r then f + 1
  else if f % 2 = 0 then f else f + 1

/-- Python `f"{x:.0%}"`. -/
def fmtPct (x : ℚ) : String := toString (roundHalfEven (100 * x)) ++ "%"

/-- Count of records with normalized `Lead Status` equal to `"qualified"`
(the `sum(1 for …)` expressions in `generate_combined_qa_report`). -/
def countQualified (records : List Record) : Nat :=
  (records.filter (fun r => normalize (getD r "Lead Status" (CellValue.str "")) = "qualified")).length

/-- `ReportGenerator.generate_combined_qa_report`. -/
def generate_combined_qa_report (date_records mtd_records : List Record) :
    List (List CellValue) :=
  [[CellValue.str "MTD PRE QA", CellValue.str "MTD POST QA",
    CellValue.str "PRE QA", CellValue.str "POST QA"],
   [CellValue.intV mtd_records.length, CellValue.intV (countQualified mtd_records),
    CellValue.intV date_records.length, CellValue.intV (countQualified date_records)]]

/-- One row of the agent breakdown before display formatting:
`[agent, disqualified, qualified, grand_total, error_pct]`. -/
structure AgentRow where
  agent : CellValue
  dq : Nat
  q : Nat
  total : Nat
  pct : ℚ
deriving DecidableEq, Repr

/-- `agent_data[agent][status] += 1` over a `defaultdict` in insertion order;
entries are `(agent, qualified, disqualified)`. -/
def bumpAgent : List (CellValue × Nat × Nat) → CellValue → Bool → List (CellValue × Nat × Nat)
  | [], agent, isQ => [(agent, (if isQ then 1 else 0), (if isQ then 0 else 1))]
  | p :: rest, agent, isQ =>
    if p.1 = agent then
      (p.1, (if isQ then p.2.1 + 1 else p.2.1), (if isQ then p.2.2 else p.2.2 + 1)) :: rest
    else p :: bumpAgent rest agent isQ

def agent_data (records : List Record) : List (CellValue × Nat × Nat) :=
  records.foldl (fun acc r =>
    let agent := getD r "Agent Name" (CellValue.str "(Blank)")
    let status := normalize (getD r "Lead Status" (CellValue.str ""))
    if status = "qualified" then bumpAgent acc agent true
    else if status = "disqualified" then bumpAgent acc agent false
    else acc) []

def agent_rows (records : List Record) : List AgentRow :=
  (agent_data records).map (fun p =>
    let gt := p.2.1 + p.2.2
    ⟨p.1, p.2.2, p.2.1, gt, if 0 < gt then (p.2.2 : ℚ) / (gt : ℚ) else 0⟩)

def agentLt (a b : AgentRow) : Bool := decide (a.pct < b.pct)

def sorted_agent_rows (records : List Record) : List AgentRow :=
  sortDescBy agentLt (agent_rows records)

def agent_rows_with_total (records : List Record) : List AgentRow :=
  if sorted_agent_rows records = [] then sorted_agent_rows records
  else
    sorted_agent_rows records ++
      [⟨CellValue.str "Grand Total",
        ((sorted_agent_rows records).map AgentRow.dq).sum,
        ((sorted_agent_rows records).map AgentRow.q).sum,
        ((sorted_agent_rows records).map AgentRow.total).sum,
        if 0 < ((sorted_agent_rows records).map AgentRow.total).sum then
          (((sorted_agent_rows records).map AgentRow.dq).sum : ℚ) /
            (((sorted_agent_rows records).map AgentRow.total).sum : ℚ)
        else 0⟩]

def displayAgentRow (r : AgentRow) : List CellValue :=
  [r.agent, CellValue.intV r.dq, CellValue.intV r.q, CellValue.intV r.total,
   CellValue.str (fmtPct r.pct)]

/-- `ReportGenerator.generate_agent_breakdown_report`. -/
def generate_agent_breakdown_report (records : List Record) : List (List CellValue) :=
  [CellValue.str "Agent Name", CellValue.str "Disqualified", CellValue.str "Qualified",
   CellValue.str "Grand Total", CellValue.str "Error%"]
    :: (agent_rows_with_total records).map displayAgentRow

/-- One row of the DQ-reason breakdown before display formatting. -/
structure DqRow where
  reason : CellValue
  count : Nat
  pct : ℚ
deriving DecidableEq, Repr

def reason_counts (records : List Record) : List (CellValue × Nat) :=
  records.foldl (fun acc r =>
    if normalize (getD r "Lead Status" (CellValue.str "")) = "disqualified" then
      counterAdd acc (getD r "DQ Reason" (CellValue.str "(Blank)"))
    else acc) []

def reason_rows (records : List Record) : List DqRow :=
  (reason_counts records).map (fun p =>
    ⟨p.1, p.2, if 0 < records.length then (p.2 : ℚ) / (records.length : ℚ) else 0⟩)

def dqLt (a b : DqRow) : Bool := decide (a.pct < b.pct)

def sorted_reason_rows (records : List Record) : List DqRow :=
  sortDescBy dqLt (reason_rows records)

def reason_rows_with_total (records : List Record) : List DqRow :=
  if sorted_reason_rows records = [] then sorted_reason_rows records
  else
    sorted_reason_rows records ++
      [⟨CellValue.str "Grand Total", ((sorted_reason_rows records).map DqRow.count).sum,
        if 0 < records.length then
          (((sorted_reason_rows records).map DqRow.count).sum : ℚ) / (records.length : ℚ)
        else 0⟩]

def displayDqRow (r : DqRow) : List CellValue :=
  [r.reason, CellValue.intV r.count, CellValue.str (fmtPct r.pct)]

/-- `ReportGenerator.generate_dq_reason_report`. -/
def generate_dq_reason_report (records : List Record) : List (List CellValue) :=
  [CellValue.str "DQ Reason", CellValue.str "Disqualified", CellValue.str "Error%"]
    :: (reason_rows_with_total records).map displayDqRow

/-- The string key used by the segment / persona reports. -/
def tagKey (r : Record) (col : String) : String :=
  let tag := getD r col (CellValue.str "(Blank)")
  if tag = CellValue.none ∨ pyStrip (CellValue.pyStr tag) = "" then "(Blank)"
  else pyStrip (CellValue.pyStr tag)

def tag_counts (records : List Record) (col : String) : List (String × Nat) :=
  records.foldl (fun acc r =>
    if normalize (getD r "Lead Status" (CellValue.str "")) = "qualified" then
      counterAdd acc (tagKey r col)
    else acc) []

def tagCntLt (a b : String × Nat) : Bool := decide (a.2 < b.2)

/-- `Counter.most_common()`: stable sort by count descending. -/
def tag_rows (records : List Record) (col : String) : List (String × Nat) :=
  sortDescBy tagCntLt (tag_counts records col)

def tag_rows_with_total (records : List Record) (col : String) : List (String × Nat) :=
  if tag_rows records col = [] then tag_rows records col
  else tag_rows records col ++ [("Grand Total", ((tag_rows records col).map Prod.snd).sum)]

/-- `ReportGenerator.generate_segment_wise_report`. -/
def generate_segment_wise_report (records : List Record) : List (List CellValue) :=
  [CellValue.str "Segment Wise", CellValue.str "Qualified Count"]
    :: (tag_rows_with_total records "Segment Tagging").map
        (fun p => [CellValue.str p.1, CellValue.intV p.2])

/-- `ReportGenerator.generate_jt_persona_wise_report`. -/
def generate_jt_persona_wise_report (records : List Record) : List (List CellValue) :=
  [CellValue.str "JT Persona Tagging", CellValue.str "Qualified Count"]
    :: (tag_rows_with_total records "JT Persona Tagging").map
        (fun p => [CellValue.str p.1, CellValue.intV p.2])

/-! ### `DataValidator`: status normalization and fuzzy matching -/

def ACCEPTED_LEAD_STATUS : List String := ["Qualified", "Disqualified"]

def isValidStatus : CellValue → Bool
  | CellValue.str s => ACCEPTED_LEAD_STATUS.contains s
  | _ => false

def qualifiedPatterns : List String := ["qualified", "qualify", "qual", "q"]

def disqualifiedPatterns : List String := ["disqualified", "disqualify", "disqual", "dq", "dis"]

/-- `DataValidator.normalize_lead_status`. -/
def normalize_lead_status (v : CellValue) : CellValue :=
  if CellValue.truthy v = false ∨ pyStrip (CellValue.pyStr v) = "" then v
  else
    let statusLower := pyStrip (pyLower (CellValue.pyStr v))
    if qualifiedPatterns.any (fun p => statusLower = p || pyStartsWith statusLower p) then
      CellValue.str "Qualified"
    else if disqualifiedPatterns.any (fun p => statusLower = p || pyStartsWith statusLower p) then
      CellValue.str "Disqualified"
    else v

/-- Length of the initial common run of two character lists. -/
def commonRun : List Char → List Char → Nat
  | a :: as2, b :: bs2 => if a = b then commonRun as2 bs2 + 1 else 0
  | _, _ => 0

/-- The longest matching block `(i, j, size)` of `SequenceMatcher`
(ties: smallest `i`, then smallest `j`). -/
def bestMatch (a b : List Char) : Nat × Nat × Nat :=
  (List.range a.length).foldl (fun acc i =>
    (List.range b.length).foldl (fun acc2 j =>
      let k := commonRun (a.drop i) (b.drop j)
      if acc2.2.2 < k then (i, j, k) else acc2) acc) (0, 0, 0)

/-- Total matched characters of Ratcliff-Obershelp (`get_matching_blocks`). -/
def matchTotalAux : Nat → List Char → List Char → Nat
  | 0, _, _ => 0
  | fuel + 1, a, b =>
    let m := bestMatch a b
    if m.2.2 = 0 then 0
    else
      matchTotalAux fuel (a.take m.1) (b.take m.2.1) + m.2.2 +
      matchTotalAux fuel (a.drop (m.1 + m.2.2)) (b.drop (m.2.1 + m.2.2))

def matchTotal (a b : List Char) : Nat := matchTotalAux (a.length + b.length) a b

/-- `SequenceMatcher(None, a, b).ratio()` with exact rationals. -/
def similarity (a b : String) : ℚ :=
  if a.data.length + b.data.length = 0 then 1
  else (2 * matchTotal a.data b.data : ℚ) / ((a.data.length + b.data.length : Nat) : ℚ)

/-- Comparison used by `heapq.nlargest` on `(score, candidate)` pairs. -/
def scoreLt (p q : ℚ × String) : Bool :=
  decide (p.1 < q.1) || (decide (p.1 = q.1) && decide (p.2 < q.2))

/-- `difflib.get_close_matches(word, possibilities, n, cutoff)`. -/
def getCloseMatches (word : String) (possibilities : List String) (n : Nat) (cutoff : ℚ) :
    List String :=
  let result := possibilities.filterMap (fun x =>
    let r := similarity x word
    if cutoff ≤ r then Option.some (r, x) else Option.none)
  ((sortDescBy scoreLt result).take n).map Prod.snd

/-- An issue record produced by `find_lead_status_issues`. -/
structure Issue where
  original : CellValue
  count : Nat
  auto_suggestion : Option CellValue
  fuzzy_matches : List String
  valid_options : List String
deriving DecidableEq, Repr

def mkIssue (status : CellValue) (count : Nat) : Issue :=
  let normalized := normalize_lead_status status
  let auto :=
    if normalized ≠ status ∧ isValidStatus normalized then Option.some normalized
    else Option.none
  ⟨status, count, auto, getCloseMatches (CellValue.pyStr status) ACCEPTED_LEAD_STATUS 2 (3 / 5),
   ACCEPTED_LEAD_STATUS⟩

/-- The Lead Status `Counter` of `find_lead_status_issues` (skips `None`). -/
def status_counts (records : List Record) : List (CellValue × Nat) :=
  records.foldl (fun acc r =>
    if getNone r "Lead Status" = CellValue.none then acc
    else counterAdd acc (getNone r "Lead Status")) []

/-- The loop body of `find_lead_status_issues`. -/
def issueStep (acc : List Issue × List (CellValue × CellValue)) (p : CellValue × Nat) :
    List Issue × List (CellValue × CellValue) :=
  if isValidStatus p.1 then acc
  else
    (acc.1 ++ [mkIssue p.1 p.2],
     acc.2 ++ (match (mkIssue p.1 p.2).auto_suggestion with
               | Option.some a => [(p.1, a)]
               | Option.none => []))

/-- `DataValidator.find_lead_status_issues`. -/
def find_lead_status_issues (records : List Record) :
    List Issue × List (CellValue × CellValue) :=
  (status_counts records).foldl issueStep ([], [])

/-- The auto-suggestion rule as worded by the specification: the lower-cased,
trimmed value equal to or starting with a qualified alias suggests
"Qualified"; a disqualified alias suggests "Disqualified". -/
def specAutoSuggestion (v : CellValue) : Option CellValue :=
  if qualifiedPatterns.any (fun p =>
      pyStrip (pyLower (CellValue.pyStr v)) = p ||
      pyStartsWith (pyStrip (pyLower (CellValue.pyStr v))) p) then
    Option.some (CellValue.str "Qualified")
  else if disqualifiedPatterns.any (fun p =>
      pyStrip (pyLower (CellValue.pyStr v)) = p ||
      pyStartsWith (pyStrip (pyLower (CellValue.pyStr v))) p) then
    Option.some (CellValue.str "Disqualified")
  else Option.none

/-- A dataset with five "Qual" records, used to exercise issue detection. -/
def exC5Records : List Record :=
  [[("Lead Status", CellValue.str "Qual")], [("Lead Status", CellValue.str "Qual")],
   [("Lead Status", CellValue.str "Qualified")], [("Lead Status", CellValue.str "Qual")],
   [("Lead Status", CellValue.none)],
   [("Lead Status", CellValue.str "Qual")], [("Lead Status", CellValue.str "Qual")]]

/-- A dataset with one disqualified and one qualified record. -/
def exC8Records : List Record :=
  [[("Lead Status", CellValue.str "Disqualified"),
    ("DQ Reason", CellValue.str "Not Interested")],
   [("Lead Status", CellValue.str "Qualified")]]

/-- The loop body of `apply_corrections`: the (copied) record, and whether
its exact `Lead Status` value was a key of the correction map. -/
def correctRecord (corrections : List (String × String)) (r : Record) : Record × Bool :=
  match getNone r "Lead Status" with
  | CellValue.str s =>
    match corrections.lookup s with
    | Option.some v => (setVal r "Lead Status" (CellValue.str v), true)
    | Option.none => (r, false)
  | _ => (r, false)

/-- `DataValidator.apply_corrections`. -/
def apply_corrections (records : List Record) (corrections : List (String × String)) :
    List Record × Nat :=
  if corrections.isEmpty then (records, 0)
  else
    (records.map (fun r => (correctRecord corrections r).1),
     (records.filter (fun r => (correctRecord corrections r).2)).length)

/-! ### `DataProcessor.clean_data` -/

/-- `DataProcessor.normalize_dq_reason`. -/
def normalize_dq_reason (s : String) : String :=
  if s = "" ∨ pyStrip s = "" ∨ pyStrip s = "-" then s
  else pyTitle (pyStrip s)

def CLEAN_FIELDS : List String := ["Lead Status", "Agent Name", "DQ Reason"]

/-- One iteration of the field-cleaning loop in `clean_data`. -/
def cleanField (r : Record) (field : String) : Record :=
  if getNone r field = CellValue.none ∨ pyStrip (CellValue.pyStr (getNone r field)) = "" ∨
      pyStrip (CellValue.pyStr (getNone r field)) = "-" then
    setVal r field (if field = "Lead Status" then CellValue.str "" else CellValue.str "(Blank)")
  else if field = "DQ Reason" then
    setVal r field (CellValue.str (normalize_dq_reason (pyStrip (CellValue.pyStr (getNone r field)))))
  else setVal r field (CellValue.str (pyStrip (CellValue.pyStr (getNone r field))))

def cleanRecord (r : Record) : Record := CLEAN_FIELDS.foldl cleanField r

/-- `DataProcessor.clean_data`. -/
def clean_data (records : List Record) : List Record := records.map cleanRecord

/-! ### `DataProcessor._parse_sheet` -/

/-- Python `enumerate(l, start)`. -/
def pyEnum {α : Type} (start : Nat) : List α → List (Nat × α)
  | [] => []
  | x :: xs => (start, x) :: pyEnum (start + 1) xs

/-- A worksheet row, as `iter_rows(values_only=True)` yields it. -/
def rowNonEmpty (row : List CellValue) : Bool := row.any (fun c => c ≠ CellValue.none)

def headerName (i : Nat) (h : CellValue) : String :=
  if h = CellValue.none then "Column_" ++ toString (i + 1) else pyStrip (CellValue.pyStr h)

def buildRecord (headers : List String) (row : List CellValue) (rowIdx : Nat)
    (sheetType : String) : Record :=
  let base := (pyEnum 0 headers).foldl
    (fun rec2 p => setVal rec2 p.2 (row.getD p.1 CellValue.none)) []
  setVal (setVal base "_row_number" (CellValue.intV rowIdx))
    "_sheet_name" (CellValue.str sheetType)

/-- `DataProcessor._parse_sheet` on the rows of one worksheet. -/
def parse_sheet (ws : List (List CellValue)) (sheetType : String) :
    List String × List Record :=
  if ws.length < 2 then ([], [])
  else
    match ws.filter rowNonEmpty with
    | [] => ([], [])
    | headerRow :: rest =>
      let headers := (pyEnum 0 headerRow).map (fun p => headerName p.1 p.2)
      let records := (pyEnum 2 rest).filterMap (fun p =>
        if rowNonEmpty p.2 then Option.some (buildRecord headers p.2 p.1 sheetType)
        else Option.none)
      (headers, records)

/-! ### Auxiliary definitions used by the verification -/

/-- The ten-record end-to-end dataset: six records dated 2025-11-06
(four Qualified, two Disqualified) and four dated 2025-11-03
(three Qualified, one Disqualified). -/
def e2eRecord (d : Date) (st : String) : Record :=
  [("Audit Date", CellValue.dateV d), ("Lead Status", CellValue.str st)]

def e2eRecords : List Record :=
  [e2eRecord ⟨2025, 11, 6⟩ "Qualified", e2eRecord ⟨2025, 11, 6⟩ "Qualified",
   e2eRecord ⟨2025, 11, 6⟩ "Qualified", e2eRecord ⟨2025, 11, 6⟩ "Qualified",
   e2eRecord ⟨2025, 11, 6⟩ "Disqualified", e2eRecord ⟨2025, 11, 6⟩ "Disqualified",
   e2eRecord ⟨2025, 11, 3⟩ "Qualified", e2eRecord ⟨2025, 11, 3⟩ "Qualified",
   e2eRecord ⟨2025, 11, 3⟩ "Qualified", e2eRecord ⟨2025, 11, 3⟩ "Disqualified"]

/-- The per-field cleaning map the specification describes: absent, blank
after trimming, or trimming to exactly "-" becomes `""` for Lead Status and
`"(Blank)"` otherwise; other values are trimmed, and DQ Reason is
additionally title-cased. -/
def expectedClean (field : String) (v : CellValue) : CellValue :=
  if v = CellValue.none ∨ pyStrip (CellValue.pyStr v) = "" ∨ pyStrip (CellValue.pyStr v) = "-" then
    (if field = "Lead Status" then CellValue.str "" else CellValue.str "(Blank)")
  else if field = "DQ Reason" then CellValue.str (pyTitle (pyStrip (CellValue.pyStr v)))
  else CellValue.str (pyStrip (CellValue.pyStr v))

/-- A dataset containing exactly five records with Lead Status "Qual". -/
def exQualRecords : List Record :=
  [[("Lead Status", CellValue.str "Qual")], [("Lead Status", CellValue.str "Qual")],
   [("Lead Status", CellValue.str "Qualified")], [("Lead Status", CellValue.str "Qual")],
   [("Lead Status", CellValue.none)], [("Agent Name", CellValue.str "A")],
   [("Lead Status", CellValue.str "Qual")], [("Lead Status", CellValue.str "Disqualified")],
   [("Lead Status", CellValue.str "Qual")]]

/-- A worksheet whose sheet rows are: header (row 1), a data row (row 2), an
entirely blank row (row 3), and another data row (row 4). -/
def wsBlankRow : List (List CellValue) :=
  [[CellValue.str "Audit Date", CellValue.str "Lead Status"],
   [CellValue.str "06-Nov-25", CellValue.str "Qualified"],
   [CellValue.none, CellValue.none],
   [CellValue.str "03-Nov-25", CellValue.str "Disqualified"]]

/-- The running-minimum step of the earliest-date loop. -/
def minStep (e : Option Date) (d : Date) : Option Date :=
  match e with
  | Option.none => Option.some d
  | Option.some e0 => if Date.lt d e0 then Option.some d else Option.some e0

/-- The integer content of a count cell (0 for non-integer cells). -/
def cellInt : CellValue → Int
  | CellValue.intV n => n
  | _ => 0

/-- Column-wise sum of the integer cells at index `i` of a block of rows. -/
def colSumInt (rows : List (List CellValue)) (i : Nat) : Int :=
  (rows.map (fun row => cellInt (row.getD i CellValue.none))).sum

/-- Ten records giving agent rows `[A,2,3,5,0.40]` and `[B,1,4,5,0.20]`. -/
def agC4Records : List Record :=
  [[("Agent Name", CellValue.str "A"), ("Lead Status", CellValue.str "Qualified")],
   [("Agent Name", CellValue.str "A"), ("Lead Status", CellValue.str "Qualified")],
   [("Agent Name", CellValue.str "A"), ("Lead Status", CellValue.str "Qualified")],
   [("Agent Name", CellValue.str "A"), ("Lead Status", CellValue.str "Disqualified")],
   [("Agent Name", CellValue.str "A"), ("Lead Status", CellValue.str "Disqualified")],
   [("Agent Name", CellValue.str "B"), ("Lead Status", CellValue.str "Qualified")],
   [("Agent Name", CellValue.str "B"), ("Lead Status", CellValue.str "Qualified")],
   [("Agent Name", CellValue.str "B"), ("Lead Status", CellValue.str "Qualified")],
   [("Agent Name", CellValue.str "B"), ("Lead Status", CellValue.str "Qualified")],
   [("Agent Name", CellValue.str "B"), ("Lead Status", CellValue.str "Disqualified")]]

def lookupCount {α : Type} [DecidableEq α] (acc : List (α × Nat)) (v : α) : Option Nat :=
  (acc.find? (fun p => decide (p.1 = v))).map Prod.snd

/-! ### Order lemmas for dates -/

theorem Date.ext_iff2 (a b : Date) :
    a = b ↔ a.year = b.year ∧ a.month = b.month ∧ a.day = b.day := by
  constructor
  · intro h; subst h; exact ⟨rfl, rfl, rfl⟩
  · rintro ⟨h1, h2, h3⟩; cases a; cases b; simp_all

theorem Date.le_refl (a : Date) : Date.le a a := Or.inr rfl

theorem Date.not_lt_iff_le (a b : Date) : ¬ Date.lt a b ↔ Date.le b a := by
  obtain ⟨a1, a2, a3⟩ := a
  obtain ⟨b1, b2, b3⟩ := b
  simp only [Date.le, Date.lt, Date.ext_iff2]
  omega

theorem Date.lt_of_le_of_lt {a b c : Date} (h1 : Date.le a b) (h2 : Date.lt b c) :
    Date.lt a c := by
  obtain ⟨a1, a2, a3⟩ := a
  obtain ⟨b1, b2, b3⟩ := b
  obtain ⟨c1, c2, c3⟩ := c
  simp only [Date.le, Date.lt, Date.ext_iff2] at *
  omega

theorem Date.le_antisymm {a b : Date} (h1 : Date.le a b) (h2 : Date.le b a) : a = b := by
  obtain ⟨a1, a2, a3⟩ := a
  obtain ⟨b1, b2, b3⟩ := b
  simp only [Date.le, Date.lt, Date.ext_iff2] at *
  omega

theorem Date.le_of_lt {a b : Date} (h : Date.lt a b) : Date.le a b := Or.inl h

theorem Date.lt_irrefl (a : Date) : ¬ Date.lt a a := by
  obtain ⟨a1, a2, a3⟩ := a
  simp only [Date.lt]
  omega

/-! ## Supporting lemmas -/

theorem getVal_setVal_self (r : Record) (k : String) (v : CellValue) :
    getVal (setVal r k v) k = Option.some v := by
  induction r with
  | nil => simp [setVal, getVal]
  | cons p rest ih =>
    by_cases h : p.1 = k
    · simp [setVal, h, getVal]
    · simp [setVal, h, getVal, ih]

theorem getVal_setVal_ne (r : Record) (k k2 : String) (v : CellValue) (h : k2 ≠ k) :
    getVal (setVal r k v) k2 = getVal r k2 := by
  induction r with
  | nil => simp [setVal, getVal, Ne.symm h]
  | cons p rest ih =>
    by_cases hp : p.1 = k
    · simp [setVal, hp, getVal, Ne.symm h, ih]
    · simp only [setVal, if_neg hp, getVal]
      by_cases hp2 : p.1 = k2
      · simp [hp2]
      · simp [hp2, ih]

theorem filter_setVal (r : Record) (k : String) (v : CellValue) (P : String → Bool)
    (hk : P k = false) :
    (setVal r k v).filter (fun p => P p.1) = r.filter (fun p => P p.1) := by
  induction r with
  | nil => simp [setVal, hk]
  | cons p rest ih =>
    by_cases hp : p.1 = k
    · simp [setVal, hp, List.filter, hk]
    · simp only [setVal, hp, if_false, List.filter_cons, ih]

theorem forall₂_map_self {α β : Type} (P : α → β → Prop) (f : α → β) (l : List α)
    (h : ∀ x ∈ l, P x (f x)) : List.Forall₂ P l (l.map f) := by
  induction l with
  | nil => exact List.Forall₂.nil
  | cons x xs ih =>
    exact List.Forall₂.cons (h x (List.mem_cons_self x xs))
      (ih (fun y hy => h y (List.mem_cons_of_mem x hy)))

/-! ## C2: `parse_date` format order -/

/-- C2: `parse_date` tries the documented format list in order, with
day-month-year patterns before month-day-year patterns: "06-Nov-25",
"06-11-2025", "2025-11-06" and "2025-11-06 00:00:00" all parse to
November 6 2025, while the ambiguous "11/06/2025" parses day-first to
June 11 2025, not November 6. -/
theorem parse_date_format_order :
    parse_date (CellValue.str "06-Nov-25") = Option.some ⟨2025, 11, 6⟩ ∧
    parse_date (CellValue.str "06-11-2025") = Option.some ⟨2025, 11, 6⟩ ∧
    parse_date (CellValue.str "2025-11-06") = Option.some ⟨2025, 11, 6⟩ ∧
    parse_date (CellValue.str "2025-11-06 00:00:00") = Option.some ⟨2025, 11, 6⟩ ∧
    parse_date (CellValue.str "11/06/2025") = Option.some ⟨2025, 6, 11⟩ := by
  refine ⟨?_, ?_, ?_, ?_, ?_⟩ <;> decide

/-! ## C3: combined QA report -/

/-- C3: `generate_combined_qa_report` returns exactly two rows, the fixed
header and the data row `[len mtd, qualified mtd, len daily, qualified daily]`;
on the end-to-end ten-record scenario with selected date 2025-11-06 the data
row is `[10, 7, 6, 4]`. -/
theorem generate_combined_qa_report_spec :
    (∀ date_records mtd_records : List Record,
      generate_combined_qa_report date_records mtd_records =
        [[CellValue.str "MTD PRE QA", CellValue.str "MTD POST QA",
          CellValue.str "PRE QA", CellValue.str "POST QA"],
         [CellValue.intV mtd_records.length,
          CellValue.intV (mtd_records.filter (fun r =>
            normalize (getD r "Lead Status" (CellValue.str "")) = "qualified")).length,
          CellValue.intV date_records.length,
          CellValue.intV (date_records.filter (fun r =>
            normalize (getD r "Lead Status" (CellValue.str "")) = "qualified")).length]]) ∧
    generate_combined_qa_report
        (filter_records_by_date (Option.some "Audit Date") e2eRecords ⟨2025, 11, 6⟩)
        (filter_records_mtd (Option.some "Audit Date") e2eRecords ⟨2025, 11, 6⟩) =
      [[CellValue.str "MTD PRE QA", CellValue.str "MTD POST QA",
        CellValue.str "PRE QA", CellValue.str "POST QA"],
       [CellValue.intV 10, CellValue.intV 7, CellValue.intV 6, CellValue.intV 4]] := by
  constructor
  · intro date_records mtd_records
    rfl
  · decide

/-! ## C7: field cleaning -/

theorem rstripWS_cons_eq (c : Char) (cs : List Char) :
    rstripWS (c :: cs) =
      (match rstripWS cs with
       | [] => if c.isWhitespace then [] else [c]
       | r => c :: r) := rfl

theorem rstripWS_idem (l : List Char) : rstripWS (rstripWS l) = rstripWS l := by
  induction l with
  | nil => rfl
  | cons c cs ih =>
    rcases h : rstripWS cs with _ | ⟨x, xs⟩
    · rw [rstripWS_cons_eq, h]
      by_cases hc : c.isWhitespace
      · rw [if_pos hc]; rfl
      · rw [if_neg hc, rstripWS_cons_eq]
        show (if c.isWhitespace then [] else [c]) = [c]
        rw [if_neg hc]
    · rw [rstripWS_cons_eq, h]
      show rstripWS (c :: x :: xs) = c :: x :: xs
      rw [h] at ih
      rw [rstripWS_cons_eq, ih]

theorem dropWhile_rstripWS (l : List Char)
    (h : l.dropWhile Char.isWhitespace = l) :
    (rstripWS l).dropWhile Char.isWhitespace = rstripWS l := by
  cases l with
  | nil => rfl
  | cons c cs =>
    have hc : ¬ c.isWhitespace := by
      intro hc
      rw [List.dropWhile_cons_of_pos hc] at h
      have h1 := congrArg List.length h
      simp only [List.length_cons] at h1
      have h2 := (List.dropWhile_sublist (l := cs) Char.isWhitespace).length_le
      omega
    rw [rstripWS_cons_eq]
    rcases rstripWS cs with _ | ⟨x, xs⟩
    · rw [if_neg hc]
      show List.dropWhile Char.isWhitespace [c] = [c]
      rw [List.dropWhile_cons_of_neg hc]
    · exact List.dropWhile_cons_of_neg hc

theorem pyStripList_idem (cs : List Char) :
    pyStripList (pyStripList cs) = pyStripList cs := by
  unfold pyStripList
  rw [dropWhile_rstripWS, rstripWS_idem]
  exact List.dropWhile_idempotent _ _

theorem pyStripIdem (s : String) : pyStrip (pyStrip s) = pyStrip s := by
  unfold pyStrip
  exact congrArg String.mk (pyStripList_idem s.data)

theorem getVal_cleanField_self (r : Record) (field : String) :
    getVal (cleanField r field) field = Option.some (expectedClean field (getNone r field)) := by
  unfold cleanField expectedClean
  split
  · rw [getVal_setVal_self]
  · rename_i hcond
    push_neg at hcond
    by_cases hdq : field = "DQ Reason"
    · rw [if_pos hdq, if_pos hdq, getVal_setVal_self]
      have hnd : normalize_dq_reason (pyStrip (CellValue.pyStr (getNone r field))) =
          pyTitle (pyStrip (CellValue.pyStr (getNone r field))) := by
        unfold normalize_dq_reason
        rw [pyStripIdem, if_neg]
        intro hor
        rcases hor with h1 | h1 | h1
        · exact hcond.2.1 h1
        · exact hcond.2.1 h1
        · exact hcond.2.2 h1
      rw [hnd]
    · rw [if_neg hdq, if_neg hdq, getVal_setVal_self]

theorem getVal_cleanField_ne (r : Record) (field field2 : String) (h : field2 ≠ field) :
    getVal (cleanField r field) field2 = getVal r field2 := by
  unfold cleanField
  split
  · rw [getVal_setVal_ne _ _ _ _ h]
  · split
    · rw [getVal_setVal_ne _ _ _ _ h]
    · rw [getVal_setVal_ne _ _ _ _ h]

/-- C7: for every input record, cleaning maps each of `Lead Status`,
`Agent Name`, `DQ Reason` as specified: absent / blank-after-trim / "-"
becomes `""` for Lead Status and `"(Blank)"` for the other two, any other
value is trimmed, non-blank DQ Reason is additionally title-cased, and all
three fields are present (a `some` lookup) in every cleaned record. -/
theorem clean_data_fields_spec (records : List Record) :
    List.Forall₂ (fun r r2 => ∀ field ∈ CLEAN_FIELDS,
        getVal r2 field = Option.some (expectedClean field (getNone r field)))
      records (clean_data records) := by
  apply forall₂_map_self
  intro r _ field hf
  have hsteps : cleanRecord r = cleanField (cleanField (cleanField r "Lead Status")
      "Agent Name") "DQ Reason" := rfl
  have hf2 : field = "Lead Status" ∨ field = "Agent Name" ∨ field = "DQ Reason" := by
    simpa [CLEAN_FIELDS] using hf
  rcases hf2 with hf | hf | hf
  · rw [hsteps, getVal_cleanField_ne _ _ _ (by rw [hf]; decide),
      getVal_cleanField_ne _ _ _ (by rw [hf]; decide), hf,
      getVal_cleanField_self]
  · rw [hsteps, getVal_cleanField_ne _ _ _ (by rw [hf]; decide), hf,
      getVal_cleanField_self]
    have hne : getNone (cleanField r "Lead Status") "Agent Name" = getNone r "Agent Name" := by
      unfold getNone
      rw [getVal_cleanField_ne _ _ _ (by decide)]
    rw [hne]
  · rw [hsteps, hf, getVal_cleanField_self]
    have hne : getNone (cleanField (cleanField r "Lead Status") "Agent Name") "DQ Reason" =
        getNone r "DQ Reason" := by
      unfold getNone
      rw [getVal_cleanField_ne _ _ _ (by decide),
        getVal_cleanField_ne _ _ _ (by decide)]
    rw [hne]

/-- C7 witness: a concrete record with DQ Reason "email bounce back" cleans
to "Email Bounce Back". -/
theorem clean_data_fields_spec_witness :
    getVal (cleanRecord [("DQ Reason", CellValue.str "email bounce back")]) "DQ Reason" =
      Option.some (CellValue.str "Email Bounce Back") := by
  have h : List.Forall₂ (fun r r2 => ∀ field ∈ CLEAN_FIELDS,
      getVal r2 field = Option.some (expectedClean field (getNone r field)))
      [[("DQ Reason", CellValue.str "email bounce back")]]
      [cleanRecord [("DQ Reason", CellValue.str "email bounce back")]] :=
    clean_data_fields_spec [[("DQ Reason", CellValue.str "email bounce back")]]
  cases h with
  | cons hrel _ =>
    rw [hrel "DQ Reason" (by decide)]
    decide

/-! ## C10: frame conditions of clean_data and apply_corrections -/

theorem filter_cleanField (r : Record) (field : String)
    (hf : CLEAN_FIELDS.contains field = true) :
    (cleanField r field).filter (fun p => !(CLEAN_FIELDS.contains p.1)) =
      r.filter (fun p => !(CLEAN_FIELDS.contains p.1)) := by
  have hfalse : (fun k => !(CLEAN_FIELDS.contains k)) field = false := by
    show (!(CLEAN_FIELDS.contains field)) = false
    rw [hf]
    rfl
  unfold cleanField
  split
  · exact filter_setVal r field _ (fun k => !(CLEAN_FIELDS.contains k)) hfalse
  · split
    · exact filter_setVal r field _ (fun k => !(CLEAN_FIELDS.contains k)) hfalse
    · exact filter_setVal r field _ (fun k => !(CLEAN_FIELDS.contains k)) hfalse

/-- C10: `clean_data` returns a list of the same length in which every
key-value pair outside `Lead Status` / `Agent Name` / `DQ Reason`
(provenance fields and extra columns included) is identical, in place and
in order, to the input record; and `apply_corrections` likewise preserves
every pair other than `Lead Status`.  (`List.Forall₂` forces equal lengths;
mutation of the inputs is impossible in this purely functional model, which
mirrors the `record.copy()` discipline of the code.) -/
theorem frame_spec :
    (∀ records : List Record,
      List.Forall₂ (fun r r2 =>
        r2.filter (fun p => !(CLEAN_FIELDS.contains p.1)) =
          r.filter (fun p => !(CLEAN_FIELDS.contains p.1)))
        records (clean_data records)) ∧
    (∀ (records : List Record) (m : List (String × String)),
      List.Forall₂ (fun r r2 =>
        r2.filter (fun p => !(p.1 = "Lead Status" : Bool)) =
          r.filter (fun p => !(p.1 = "Lead Status" : Bool)))
        records (apply_corrections records m).1) := by
  constructor
  · intro records
    apply forall₂_map_self
    intro r _
    show (cleanField (cleanField (cleanField r "Lead Status") "Agent Name") "DQ Reason").filter _ = _
    rw [filter_cleanField _ _ (by decide), filter_cleanField _ _ (by decide),
      filter_cleanField _ _ (by decide)]
  · intro records m
    unfold apply_corrections
    split
    · exact (List.forall₂_same).mpr (fun r _ => rfl)
    · apply forall₂_map_self
      intro r _
      unfold correctRecord
      split
      · split
        · exact filter_setVal r "Lead Status" _ (fun k => !(k = "Lead Status" : Bool)) (by simp)
        · rfl
      · rfl

/-! ## C6: apply_corrections -/

theorem lookup_mem {m : List (String × String)} {a b : String}
    (h : m.lookup a = Option.some b) : (a, b) ∈ m := by
  induction m with
  | nil => cases h
  | cons p rest ih =>
    rcases p with ⟨k, v⟩
    by_cases hk : a = k
    · subst hk
      simp [List.lookup] at h
      subst h
      exact List.mem_cons_self _ _
    · have hbeq : (a == k) = false := beq_eq_false_iff_ne.mpr hk
      simp [List.lookup, hbeq] at h
      exact List.mem_cons_of_mem _ (ih h)

theorem correctRecord_snd (m : List (String × String)) (r : Record) :
    (correctRecord m r).2 =
      (match getNone r "Lead Status" with
       | CellValue.str s => (m.lookup s).isSome
       | _ => false) := by
  unfold correctRecord
  rcases getNone r "Lead Status" with _ | s | n | d | ⟨d, hh, mi, ss⟩
  · rfl
  · show (match m.lookup s with
          | Option.some v => (setVal r "Lead Status" (CellValue.str v), true)
          | Option.none => (r, false)).2 = (m.lookup s).isSome
    rcases m.lookup s with _ | v <;> rfl
  · rfl
  · rfl
  · rfl

/-- C6: `apply_corrections` with an empty map returns the input unchanged with
count 0; in general it replaces `Lead Status` exactly where the exact original
value is a key of the map (other records are returned unchanged), returns the
count of records whose status matched a key, and — when no map value is itself
a map key — applying the map twice yields the same records as applying it
once. -/
theorem apply_corrections_spec :
    (∀ records : List Record, apply_corrections records [] = (records, 0)) ∧
    (∀ (records : List Record) (m : List (String × String)),
      List.Forall₂ (fun r r2 =>
        (∀ s w, getNone r "Lead Status" = CellValue.str s → m.lookup s = Option.some w →
          r2 = setVal r "Lead Status" (CellValue.str w)) ∧
        ((∀ s, getNone r "Lead Status" = CellValue.str s → m.lookup s = Option.none) →
          r2 = r))
        records (apply_corrections records m).1) ∧
    (∀ (records : List Record) (m : List (String × String)),
      (apply_corrections records m).2 =
        (records.filter (fun r =>
          match getNone r "Lead Status" with
          | CellValue.str s => (m.lookup s).isSome
          | _ => false)).length) ∧
    (∀ (records : List Record) (m : List (String × String)),
      (∀ p ∈ m, m.lookup p.2 = Option.none) →
      (apply_corrections (apply_corrections records m).1 m).1 =
        (apply_corrections records m).1) := by
  refine ⟨fun records => rfl, ?_, ?_, ?_⟩
  · intro records m
    unfold apply_corrections
    split
    · rename_i hemp
      have hm : m = [] := List.isEmpty_iff.mp hemp
      subst hm
      refine (List.forall₂_same).mpr (fun r _ => ⟨?_, fun _ => rfl⟩)
      intro s w _ hw
      cases hw
    · apply forall₂_map_self
      intro r _
      constructor
      · intro s w hs hw
        have h1 : correctRecord m r = (setVal r "Lead Status" (CellValue.str w), true) := by
          rw [correctRecord, hs]
          show (match m.lookup s with
                | Option.some v => (setVal r "Lead Status" (CellValue.str v), true)
                | Option.none => (r, false)) = _
          rw [hw]
        rw [h1]
      · intro hnone
        rcases hg : getNone r "Lead Status" with _ | s | n | d | ⟨d, hh, mi, ss⟩
        · have h1 : correctRecord m r = (r, false) := by rw [correctRecord, hg]
          rw [h1]
        · have h1 : correctRecord m r = (r, false) := by
            rw [correctRecord, hg]
            show (match m.lookup s with
                  | Option.some v => (setVal r "Lead Status" (CellValue.str v), true)
                  | Option.none => (r, false)) = _
            rw [hnone s hg]
          rw [h1]
        · have h1 : correctRecord m r = (r, false) := by rw [correctRecord, hg]
          rw [h1]
        · have h1 : correctRecord m r = (r, false) := by rw [correctRecord, hg]
          rw [h1]
        · have h1 : correctRecord m r = (r, false) := by rw [correctRecord, hg]
          rw [h1]
  · intro records m
    unfold apply_corrections
    split
    · rename_i hemp
      have hm : m = [] := List.isEmpty_iff.mp hemp
      subst hm
      have hnil : (records.filter (fun r =>
          match getNone r "Lead Status" with
          | CellValue.str s => (List.lookup s ([] : List (String × String))).isSome
          | _ => false)) = [] := by
        apply List.filter_eq_nil_iff.mpr
        intro r _
        show ¬(match getNone r "Lead Status" with
               | CellValue.str s => (List.lookup s ([] : List (String × String))).isSome
               | _ => false) = true
        rcases getNone r "Lead Status" with _ | s | n | d | ⟨d, hh, mi, ss⟩
        · exact Bool.false_ne_true
        · exact Bool.false_ne_true
        · exact Bool.false_ne_true
        · exact Bool.false_ne_true
        · exact Bool.false_ne_true
      rw [hnil]
      rfl
    · simp only [correctRecord_snd]
  · intro records m hvals
    unfold apply_corrections
    split
    · rfl
    · simp only [List.map_map]
      apply List.map_congr_left
      intro r _
      show (correctRecord m (correctRecord m r).1).1 = (correctRecord m r).1
      rcases hg : getNone r "Lead Status" with _ | s | n | d | ⟨d, hh, mi, ss⟩
      · have h1 : correctRecord m r = (r, false) := by rw [correctRecord, hg]
        simp only [h1]
      · rcases hl : m.lookup s with _ | w
        · have h1 : correctRecord m r = (r, false) := by
            rw [correctRecord, hg]
            show (match m.lookup s with
                  | Option.some v => (setVal r "Lead Status" (CellValue.str v), true)
                  | Option.none => (r, false)) = _
            rw [hl]
          simp only [h1]
        · have h1 : correctRecord m r = (setVal r "Lead Status" (CellValue.str w), true) := by
            rw [correctRecord, hg]
            show (match m.lookup s with
                  | Option.some v => (setVal r "Lead Status" (CellValue.str v), true)
                  | Option.none => (r, false)) = _
            rw [hl]
          have hg2 : getNone (setVal r "Lead Status" (CellValue.str w)) "Lead Status" =
              CellValue.str w := by
            unfold getNone
            rw [getVal_setVal_self]
            rfl
          have h2 : correctRecord m (setVal r "Lead Status" (CellValue.str w)) =
              (setVal r "Lead Status" (CellValue.str w), false) := by
            rw [correctRecord, hg2]
            show (match m.lookup w with
                  | Option.some v =>
                      (setVal (setVal r "Lead Status" (CellValue.str w)) "Lead Status"
                        (CellValue.str v), true)
                  | Option.none => (setVal r "Lead Status" (CellValue.str w), false)) = _
            rw [hvals (s, w) (lookup_mem hl)]
          simp only [h1, h2]
      · have h1 : correctRecord m r = (r, false) := by rw [correctRecord, hg]
        simp only [h1]
      · have h1 : correctRecord m r = (r, false) := by rw [correctRecord, hg]
        simp only [h1]
      · have h1 : correctRecord m r = (r, false) := by rw [correctRecord, hg]
        simp only [h1]

/-- C6 witness: applying `{"Qual": "Qualified"}` to a dataset with exactly
five "Qual" records affects exactly 5 records, and applying the same map
twice yields the same records as applying it once. -/
theorem apply_corrections_spec_witness :
    (apply_corrections exQualRecords [("Qual", "Qualified")]).2 = 5 ∧
    (apply_corrections (apply_corrections exQualRecords [("Qual", "Qualified")]).1
        [("Qual", "Qualified")]).1 =
      (apply_corrections exQualRecords [("Qual", "Qualified")]).1 := by
  constructor
  · rw [apply_corrections_spec.2.2.1 exQualRecords [("Qual", "Qualified")]]
    decide
  · exact apply_corrections_spec.2.2.2 exQualRecords [("Qual", "Qualified")] (by decide)

/-! ## C9: row numbers from the sheet parser -/

/-- C9 counterexample: on a sheet with a blank row interleaved, the record
built from original sheet row 4 carries `_row_number` 3, not its 1-based
position 4 in the original sheet, so the claim as stated is false. -/
theorem row_number_counterexample :
    ((parse_sheet wsBlankRow "Qualified").2.map (fun r => getNone r "_row_number")) =
      [CellValue.intV 2, CellValue.intV 3] ∧
    (CellValue.intV 3 : CellValue) ≠ CellValue.intV 4 := by
  constructor
  · decide
  · decide

theorem pyEnum_length {α : Type} (start : Nat) (l : List α) :
    (pyEnum start l).length = l.length := by
  induction l generalizing start with
  | nil => rfl
  | cons x xs ih => simp [pyEnum, ih]

theorem pyEnum_get {α : Type} (start : Nat) (l : List α) (i : Nat)
    (h : i < (pyEnum start l).length) (h2 : i < l.length) :
    (pyEnum start l).get ⟨i, h⟩ = (start + i, l.get ⟨i, h2⟩) := by
  induction l generalizing start i with
  | nil => cases h2
  | cons x xs ih =>
    cases i with
    | zero => simp [pyEnum]
    | succ j =>
      have hj : j < (pyEnum (start + 1) xs).length := by
        simpa [pyEnum] using h
      have hj2 : j < xs.length := by simpa using h2
      show (pyEnum (start + 1) xs).get ⟨j, hj⟩ = _
      rw [ih (start + 1) j hj hj2]
      simp [Nat.add_assoc, Nat.add_comm 1 j]

theorem filterMap_eq_map_of_all {α β : Type} (p : α → Bool) (g : α → β) (l : List α)
    (h : ∀ x ∈ l, p x = true) :
    l.filterMap (fun x => if p x then Option.some (g x) else Option.none) = l.map g := by
  induction l with
  | nil => rfl
  | cons x xs ih =>
    rw [List.filterMap_cons, List.map_cons]
    rw [if_pos (h x (List.mem_cons_self x xs))]
    rw [ih (fun y hy => h y (List.mem_cons_of_mem x hy))]

theorem pyEnum_mem_snd {α : Type} {start : Nat} {l : List α} {p : Nat × α}
    (hp : p ∈ pyEnum start l) : p.2 ∈ l := by
  induction l generalizing start with
  | nil => cases hp
  | cons x xs ih =>
    rcases List.mem_cons.mp hp with he | hp2
    · rw [he]
      exact List.mem_cons_self x xs
    · exact List.mem_cons_of_mem _ (ih hp2)

theorem buildRecord_row_number (headers : List String) (row : List CellValue)
    (rowIdx : Nat) (sheetType : String) :
    getNone (buildRecord headers row rowIdx sheetType) "_row_number" =
      CellValue.intV rowIdx := by
  unfold buildRecord getNone
  rw [getVal_setVal_ne _ _ _ _ (by decide), getVal_setVal_self]
  rfl

theorem parse_sheet_records (ws : List (List CellValue)) (sheetType : String)
    (headerRow : List CellValue) (rest : List (List CellValue))
    (hlen : ¬ ws.length < 2) (hfil : ws.filter rowNonEmpty = headerRow :: rest) :
    (parse_sheet ws sheetType).2 =
      (pyEnum 2 rest).map (fun q =>
        buildRecord ((pyEnum 0 headerRow).map (fun p => headerName p.1 p.2))
          q.2 q.1 sheetType) := by
  unfold parse_sheet
  rw [if_neg hlen, hfil]
  show ((pyEnum 2 rest).filterMap (fun q =>
      if rowNonEmpty q.2 then
        Option.some (buildRecord ((pyEnum 0 headerRow).map (fun p => headerName p.1 p.2))
          q.2 q.1 sheetType)
      else Option.none)) = _
  have hall : ∀ p ∈ pyEnum 2 rest, (fun q : Nat × List CellValue => rowNonEmpty q.2) p = true := by
    intro p hp
    have hmem := pyEnum_mem_snd hp
    have hmem2 : p.2 ∈ ws.filter rowNonEmpty := by
      rw [hfil]
      exact List.mem_cons_of_mem _ hmem
    exact (List.mem_filter.mp hmem2).2
  exact filterMap_eq_map_of_all (fun q => rowNonEmpty q.2)
    (fun q => buildRecord ((pyEnum 0 headerRow).map (fun p => headerName p.1 p.2))
      q.2 q.1 sheetType)
    (pyEnum 2 rest) hall

/-- C9 amended: every record emitted by `parse_sheet` carries a
`_row_number` equal to its 1-based position among the NON-BLANK rows of the
sheet, counting the (first non-blank) header row as row 1 — the `i`-th
emitted record carries row number `i + 2`.  Blank rows are skipped and do
not advance the numbering, so when blank rows are interleaved this differs
from the record's position in the original sheet. -/
theorem row_number_amended (ws : List (List CellValue)) (sheetType : String) (i : Nat)
    (h : i < (parse_sheet ws sheetType).2.length) :
    getNone ((parse_sheet ws sheetType).2.get ⟨i, h⟩) "_row_number" =
      CellValue.intV (i + 2) := by
  by_cases hlen : ws.length < 2
  · exfalso
    have hnil : (parse_sheet ws sheetType).2 = [] := by
      unfold parse_sheet
      rw [if_pos hlen]
    exact absurd h (by rw [hnil]; simp)
  · rcases hfil : ws.filter rowNonEmpty with _ | ⟨headerRow, rest⟩
    · exfalso
      have hnil : (parse_sheet ws sheetType).2 = [] := by
        unfold parse_sheet
        rw [if_neg hlen, hfil]
      exact absurd h (by rw [hnil]; simp)
    · have hrec := parse_sheet_records ws sheetType headerRow rest hlen hfil
      rw [List.get_of_eq hrec ⟨i, h⟩, List.get_map]
      have hi2 : i < rest.length := by
        have h2 := h
        rw [hrec] at h2
        simpa [pyEnum_length] using h2
      have hpe : i < (pyEnum 2 rest).length := by
        rw [pyEnum_length]
        exact hi2
      rw [pyEnum_get 2 rest i hpe hi2]
      show getNone (buildRecord _ (rest.get ⟨i, hi2⟩) (2 + i) sheetType) "_row_number" = _
      rw [buildRecord_row_number, Nat.add_comm 2 i]
      exact congrArg CellValue.intV (by push_cast; ring)

/-- C9 amended witness: on the blank-row sheet the second emitted record
(from original sheet row 4) carries row number 3. -/
theorem row_number_amended_witness :
    getNone ((parse_sheet wsBlankRow "Qualified").2.get ⟨1, by decide⟩) "_row_number" =
      CellValue.intV 3 :=
  row_number_amended wsBlankRow "Qualified" 1 (by decide)

/-! ## C1: month-to-date filtering -/

theorem Date.le_trans {a b c : Date} (h1 : Date.le a b) (h2 : Date.le b c) : Date.le a c := by
  obtain ⟨a1, a2, a3⟩ := a
  obtain ⟨b1, b2, b3⟩ := b
  obtain ⟨c1, c2, c3⟩ := c
  simp only [Date.le, Date.lt, Date.ext_iff2] at *
  omega

theorem earliestDate_fuse (c : String) (records : List Record) :
    earliestDate c records =
      (records.filterMap (fun r => parse_date (getNone r c))).foldl minStep Option.none := by
  unfold earliestDate
  suffices hgen : ∀ (l : List Record) (acc : Option Date),
      l.foldl (fun e r =>
        match parse_date (getNone r c) with
        | Option.some d => minStep e d
        | Option.none => e) acc =
      (l.filterMap (fun r => parse_date (getNone r c))).foldl minStep acc by
    rw [← hgen records Option.none]
    rfl
  intro l
  induction l with
  | nil => intro acc; rfl
  | cons r rs ih =>
    intro acc
    rw [List.foldl_cons, List.filterMap_cons]
    rcases hp : parse_date (getNone r c) with _ | d
    · rw [ih acc]
    · rw [List.foldl_cons, ih (minStep acc d)]

theorem foldlMin_spec (l : List Date) (acc : Option Date) :
    (l.foldl minStep acc = Option.none → acc = Option.none ∧ l = []) ∧
    (∀ e, l.foldl minStep acc = Option.some e →
      (e ∈ l ∨ acc = Option.some e) ∧
      (∀ d ∈ l, Date.le e d) ∧
      (∀ a, acc = Option.some a → Date.le e a)) := by
  induction l generalizing acc with
  | nil =>
    refine ⟨fun h => ⟨h, rfl⟩, fun e he => ⟨Or.inr he, fun d hd => absurd hd (by simp), ?_⟩⟩
    intro a ha
    rw [ha] at he
    cases he
    exact Date.le_refl _
  | cons d ds ih =>
    constructor
    · intro h
      rw [List.foldl_cons] at h
      have h2 := (ih (minStep acc d)).1 h
      exfalso
      rcases acc with _ | a
      · cases h2.1
      · rw [show minStep (Option.some a) d =
            (if Date.lt d a then Option.some d else Option.some a) from rfl] at h2
        rcases h3 : decide (Date.lt d a) with _ | _
        · rw [if_neg (of_decide_eq_false h3)] at h2
          cases h2.1
        · rw [if_pos (of_decide_eq_true h3)] at h2
          cases h2.1
    · intro e he
      rw [List.foldl_cons] at he
      have h2 := (ih (minStep acc d)).2 e he
      have hmin_le_d : ∀ m, minStep acc d = Option.some m → Date.le m d := by
        intro m hm
        rcases acc with _ | a
        · cases hm
          exact Date.le_refl _
        · rw [show minStep (Option.some a) d =
              (if Date.lt d a then Option.some d else Option.some a) from rfl] at hm
          rcases h3 : decide (Date.lt d a) with _ | _
          · rw [if_neg (of_decide_eq_false h3)] at hm
            cases hm
            exact (Date.not_lt_iff_le _ _).mp (of_decide_eq_false h3)
          · rw [if_pos (of_decide_eq_true h3)] at hm
            cases hm
            exact Date.le_refl _
      have hmin_le_acc : ∀ m a, minStep acc d = Option.some m → acc = Option.some a →
          Date.le m a := by
        intro m a hm ha
        subst ha
        rw [show minStep (Option.some a) d =
            (if Date.lt d a then Option.some d else Option.some a) from rfl] at hm
        rcases h3 : decide (Date.lt d a) with _ | _
        · rw [if_neg (of_decide_eq_false h3)] at hm
          cases hm
          exact Date.le_refl _
        · rw [if_pos (of_decide_eq_true h3)] at hm
          cases hm
          exact Date.le_of_lt (of_decide_eq_true h3)
      have hsome : ∃ m, minStep acc d = Option.some m := by
        rcases acc with _ | a
        · exact ⟨d, rfl⟩
        · rw [show minStep (Option.some a) d =
              (if Date.lt d a then Option.some d else Option.some a) from rfl]
          rcases h3 : decide (Date.lt d a) with _ | _
          · rw [if_neg (of_decide_eq_false h3)]
            exact ⟨a, rfl⟩
          · rw [if_pos (of_decide_eq_true h3)]
            exact ⟨d, rfl⟩
      obtain ⟨m, hm⟩ := hsome
      have hmemOf : minStep acc d = Option.some m → m = d ∨ acc = Option.some m := by
        intro hmm
        rcases acc with _ | a
        · cases hmm
          exact Or.inl rfl
        · rw [show minStep (Option.some a) d =
              (if Date.lt d a then Option.some d else Option.some a) from rfl] at hmm
          rcases h3 : decide (Date.lt d a) with _ | _
          · rw [if_neg (of_decide_eq_false h3)] at hmm
            cases hmm
            exact Or.inr rfl
          · rw [if_pos (of_decide_eq_true h3)] at hmm
            cases hmm
            exact Or.inl rfl
      refine ⟨?_, ?_, ?_⟩
      · rcases h2.1 with hin | heq
        · exact Or.inl (List.mem_cons_of_mem _ hin)
        · rw [hm] at heq
          cases heq
          rcases hmemOf hm with h4 | h4
          · subst h4
            exact Or.inl (List.mem_cons_self _ _)
          · exact Or.inr h4
      · intro d2 hd2
        rcases List.mem_cons.mp hd2 with h4 | h4
        · subst h4
          exact Date.le_trans (h2.2.2 m hm) (hmin_le_d m hm)
        · exact h2.2.1 d2 h4
      · intro a ha
        exact Date.le_trans (h2.2.2 m hm) (hmin_le_acc m a hm ha)

/-- C1: with a set, non-empty date column, `filter_records_mtd` returns
exactly the records whose date value parses into the inclusive window
`[first day of the month of the minimum parsed date, selected_date]`;
if no record date parses it returns `[]`; if `selected` is strictly before
the minimum parsed date it returns `[]`; and it is deterministic. -/
theorem filter_records_mtd_spec (c : String) (hc : c ≠ "") (records : List Record)
    (selected : Date) :
    (records.filterMap (fun r => parse_date (getNone r c)) = [] →
      filter_records_mtd (Option.some c) records selected = []) ∧
    (∀ e, e ∈ records.filterMap (fun r => parse_date (getNone r c)) →
      (∀ d ∈ records.filterMap (fun r => parse_date (getNone r c)), Date.le e d) →
      filter_records_mtd (Option.some c) records selected =
        records.filter (fun r =>
          match parse_date (getNone r c) with
          | Option.some d =>
              decide (Date.le ⟨e.year, e.month, 1⟩ d) && decide (Date.le d selected)
          | Option.none => false)) ∧
    (∀ e, e ∈ records.filterMap (fun r => parse_date (getNone r c)) →
      (∀ d ∈ records.filterMap (fun r => parse_date (getNone r c)), Date.le e d) →
      Date.lt selected e →
      filter_records_mtd (Option.some c) records selected = []) ∧
    filter_records_mtd (Option.some c) records selected =
      filter_records_mtd (Option.some c) records selected := by
  have hred : filter_records_mtd (Option.some c) records selected =
      (if c = "" then []
       else
         match earliestDate c records with
         | Option.none => []
         | Option.some e =>
             records.filter (fun r =>
               match parse_date (getNone r c) with
               | Option.some d =>
                   decide (Date.le ⟨e.year, e.month, 1⟩ d) && decide (Date.le d selected)
               | Option.none => false)) := rfl
  have hbody : ∀ e0, earliestDate c records = Option.some e0 →
      filter_records_mtd (Option.some c) records selected =
        records.filter (fun r =>
          match parse_date (getNone r c) with
          | Option.some d =>
              decide (Date.le ⟨e0.year, e0.month, 1⟩ d) && decide (Date.le d selected)
          | Option.none => false) := by
    intro e0 he0
    rw [hred, if_neg hc, he0]
  have hmin := foldlMin_spec (records.filterMap (fun r => parse_date (getNone r c)))
    Option.none
  refine ⟨?_, ?_, ?_, rfl⟩
  · intro hnil
    rw [hred, if_neg hc, earliestDate_fuse, hnil]
    rfl
  · intro e hmem hminArg
    rcases he0 : earliestDate c records with _ | e0
    · rw [earliestDate_fuse] at he0
      have h2 := hmin.1 he0
      rw [h2.2] at hmem
      cases hmem
    · have h2 := hmin.2 e0 (by rw [← earliestDate_fuse]; exact he0)
      have hee0 : e = e0 := by
        apply Date.le_antisymm
        · rcases h2.1 with hin | heq
          · exact hminArg e0 hin
          · cases heq
        · exact h2.2.1 e hmem
      subst hee0
      exact hbody e he0
  · intro e hmem hminArg hlt
    rcases he0 : earliestDate c records with _ | e0
    · rw [earliestDate_fuse] at he0
      have h2 := hmin.1 he0
      rw [h2.2] at hmem
      cases hmem
    · have h2 := hmin.2 e0 (by rw [← earliestDate_fuse]; exact he0)
      have hee0 : e = e0 := by
        apply Date.le_antisymm
        · rcases h2.1 with hin | heq
          · exact hminArg e0 hin
          · cases heq
        · exact h2.2.1 e hmem
      subst hee0
      rw [hbody e he0]
      apply List.filter_eq_nil_iff.mpr
      intro r hr
      show ¬ (match parse_date (getNone r c) with
              | Option.some d =>
                  decide (Date.le ⟨e.year, e.month, 1⟩ d) && decide (Date.le d selected)
              | Option.none => false) = true
      rcases hp : parse_date (getNone r c) with _ | d
      · exact Bool.false_ne_true
      · intro hb
        have hd2 := (Bool.and_eq_true _ _).mp hb
        have hdle : Date.le d selected := of_decide_eq_true hd2.2
        have hdmem : d ∈ records.filterMap (fun r2 => parse_date (getNone r2 c)) := by
          rw [List.mem_filterMap]
          exact ⟨r, hr, hp⟩
        have hed : Date.le e d := hminArg d hdmem
        exact absurd (Date.lt_of_le_of_lt (Date.le_trans hed hdle) hlt)
          (Date.lt_irrefl e)

/-- C1 witness: on the ten-record scenario with minimum date 2025-11-03, the
MTD filter equals the window filter with start 2025-11-01. -/
theorem filter_records_mtd_spec_witness :
    filter_records_mtd (Option.some "Audit Date") e2eRecords ⟨2025, 11, 6⟩ =
      e2eRecords.filter (fun r =>
        match parse_date (getNone r "Audit Date") with
        | Option.some d =>
            decide (Date.le ⟨2025, 11, 1⟩ d) && decide (Date.le d ⟨2025, 11, 6⟩)
        | Option.none => false) :=
  (filter_records_mtd_spec "Audit Date" (by decide) e2eRecords ⟨2025, 11, 6⟩).2.1
    ⟨2025, 11, 3⟩ (by decide) (by decide)

/-! ## C4: grand-total rows -/

theorem colSumInt_map {α : Type} (f : α → List CellValue) (l : List α) (i : Nat)
    (g : α → Int) (h : ∀ x, cellInt ((f x).getD i CellValue.none) = g x) :
    colSumInt (l.map f) i = (l.map g).sum := by
  unfold colSumInt
  rw [List.map_map]
  congr 1
  exact List.map_congr_left (fun x _ => h x)

theorem colSumInt_map_nat {α : Type} (f : α → List CellValue) (l : List α) (i : Nat)
    (g : α → Nat) (h : ∀ x, cellInt ((f x).getD i CellValue.none) = ((g x : Nat) : Int)) :
    colSumInt (l.map f) i = (((l.map g).sum : Nat) : Int) := by
  induction l with
  | nil => rfl
  | cons x xs ih =>
    unfold colSumInt at *
    simp only [List.map_cons, List.sum_cons]
    rw [ih, h x]
    push_cast
    ring

theorem div_if_pos_eq (a b : Nat) :
    (if 0 < b then (a : ℚ) / (b : ℚ) else 0) = (a : ℚ) / (b : ℚ) := by
  split
  · rfl
  · rename_i hb
    have : b = 0 := by omega
    rw [this]
    norm_num

/-- C4: in each of the four grand-total-bearing reports (agent breakdown,
DQ-reason breakdown, segment and JT-persona breakdowns), whenever the data
rows are non-empty the appended Grand Total row's count columns equal the
column-wise sums of the data rows above it, and the rate column is
recomputed from the summed totals (agent: total disqualified over total of
qualified plus disqualified; DQ-reason: summed count over the record total),
never by averaging per-row rates. -/
theorem grand_total_rows_spec :
    (∀ records : List Record, sorted_agent_rows records ≠ [] →
      generate_agent_breakdown_report records =
        [[CellValue.str "Agent Name", CellValue.str "Disqualified", CellValue.str "Qualified",
          CellValue.str "Grand Total", CellValue.str "Error%"]] ++
        (sorted_agent_rows records).map displayAgentRow ++
        [[CellValue.str "Grand Total",
          CellValue.intV (colSumInt ((sorted_agent_rows records).map displayAgentRow) 1),
          CellValue.intV (colSumInt ((sorted_agent_rows records).map displayAgentRow) 2),
          CellValue.intV (colSumInt ((sorted_agent_rows records).map displayAgentRow) 3),
          CellValue.str (fmtPct
            ((colSumInt ((sorted_agent_rows records).map displayAgentRow) 1 : ℚ) /
             (colSumInt ((sorted_agent_rows records).map displayAgentRow) 3 : ℚ)))]]) ∧
    (∀ records : List Record, sorted_reason_rows records ≠ [] →
      generate_dq_reason_report records =
        [[CellValue.str "DQ Reason", CellValue.str "Disqualified", CellValue.str "Error%"]] ++
        (sorted_reason_rows records).map displayDqRow ++
        [[CellValue.str "Grand Total",
          CellValue.intV (colSumInt ((sorted_reason_rows records).map displayDqRow) 1),
          CellValue.str (fmtPct
            ((colSumInt ((sorted_reason_rows records).map displayDqRow) 1 : ℚ) /
             (records.length : ℚ)))]]) ∧
    (∀ records : List Record, tag_rows records "Segment Tagging" ≠ [] →
      generate_segment_wise_report records =
        [[CellValue.str "Segment Wise", CellValue.str "Qualified Count"]] ++
        (tag_rows records "Segment Tagging").map
          (fun p => [CellValue.str p.1, CellValue.intV p.2]) ++
        [[CellValue.str "Grand Total",
          CellValue.intV (colSumInt ((tag_rows records "Segment Tagging").map
            (fun p => [CellValue.str p.1, CellValue.intV p.2])) 1)]]) ∧
    (∀ records : List Record, tag_rows records "JT Persona Tagging" ≠ [] →
      generate_jt_persona_wise_report records =
        [[CellValue.str "JT Persona Tagging", CellValue.str "Qualified Count"]] ++
        (tag_rows records "JT Persona Tagging").map
          (fun p => [CellValue.str p.1, CellValue.intV p.2]) ++
        [[CellValue.str "Grand Total",
          CellValue.intV (colSumInt ((tag_rows records "JT Persona Tagging").map
            (fun p => [CellValue.str p.1, CellValue.intV p.2])) 1)]]) := by
  have hsumDq : ∀ l : List AgentRow,
      colSumInt (l.map displayAgentRow) 1 = (((l.map AgentRow.dq).sum : Nat) : Int) :=
    fun l => colSumInt_map_nat displayAgentRow l 1 AgentRow.dq (fun x => rfl)
  have hsumQ : ∀ l : List AgentRow,
      colSumInt (l.map displayAgentRow) 2 = (((l.map AgentRow.q).sum : Nat) : Int) :=
    fun l => colSumInt_map_nat displayAgentRow l 2 AgentRow.q (fun x => rfl)
  have hsumT : ∀ l : List AgentRow,
      colSumInt (l.map displayAgentRow) 3 = (((l.map AgentRow.total).sum : Nat) : Int) :=
    fun l => colSumInt_map_nat displayAgentRow l 3 AgentRow.total (fun x => rfl)
  have hsumDqR : ∀ l : List DqRow,
      colSumInt (l.map displayDqRow) 1 = (((l.map DqRow.count).sum : Nat) : Int) :=
    fun l => colSumInt_map_nat displayDqRow l 1 DqRow.count (fun x => rfl)
  have hsumTag : ∀ l : List (String × Nat),
      colSumInt (l.map (fun p => [CellValue.str p.1, CellValue.intV p.2])) 1 =
        (((l.map Prod.snd).sum : Nat) : Int) :=
    fun l => colSumInt_map_nat _ l 1 Prod.snd (fun x => rfl)
  refine ⟨?_, ?_, ?_, ?_⟩
  · intro records hne
    unfold generate_agent_breakdown_report agent_rows_with_total
    rw [if_neg hne, List.map_append]
    rw [hsumDq, hsumQ, hsumT]
    rw [List.singleton_append, List.cons_append]
    congr 2
    unfold displayAgentRow
    simp only [List.map_cons, List.map_nil, Int.cast_natCast]
    rw [div_if_pos_eq]
  · intro records hne
    unfold generate_dq_reason_report reason_rows_with_total
    rw [if_neg hne, List.map_append]
    rw [hsumDqR]
    rw [List.singleton_append, List.cons_append]
    congr 2
    unfold displayDqRow
    simp only [List.map_cons, List.map_nil, Int.cast_natCast]
    rw [div_if_pos_eq]
  · intro records hne
    unfold generate_segment_wise_report tag_rows_with_total
    rw [if_neg hne, List.map_append]
    rw [hsumTag]
    rw [List.singleton_append, List.cons_append]
    congr 2
  · intro records hne
    unfold generate_jt_persona_wise_report tag_rows_with_total
    rw [if_neg hne, List.map_append]
    rw [hsumTag]
    rw [List.singleton_append, List.cons_append]
    congr 2

theorem length_insertDescBy {α : Type} (lt : α → α → Bool) (x : α) (l : List α) :
    (insertDescBy lt x l).length = l.length + 1 := by
  induction l with
  | nil => rfl
  | cons y ys ih =>
    unfold insertDescBy
    split
    · rfl
    · simp [ih]

theorem length_sortDescBy {α : Type} (lt : α → α → Bool) (l : List α) :
    (sortDescBy lt l).length = l.length := by
  unfold sortDescBy
  suffices hgen : ∀ (l2 : List α) (acc : List α),
      (l2.foldl (fun a x => insertDescBy lt x a) acc).length = acc.length + l2.length by
    rw [hgen l []]
    simp
  intro l2
  induction l2 with
  | nil => intro acc; simp
  | cons x xs ih =>
    intro acc
    rw [List.foldl_cons, ih, length_insertDescBy]
    simp only [List.length_cons]
    omega

/-- C4 witness: the agent-report grand-total property at the concrete
two-agent example (rows `[A,2,3,5],[B,1,4,5]`). -/
theorem grand_total_rows_spec_witness :
    generate_agent_breakdown_report agC4Records =
      [[CellValue.str "Agent Name", CellValue.str "Disqualified", CellValue.str "Qualified",
        CellValue.str "Grand Total", CellValue.str "Error%"]] ++
      (sorted_agent_rows agC4Records).map displayAgentRow ++
      [[CellValue.str "Grand Total",
        CellValue.intV (colSumInt ((sorted_agent_rows agC4Records).map displayAgentRow) 1),
        CellValue.intV (colSumInt ((sorted_agent_rows agC4Records).map displayAgentRow) 2),
        CellValue.intV (colSumInt ((sorted_agent_rows agC4Records).map displayAgentRow) 3),
        CellValue.str (fmtPct
          ((colSumInt ((sorted_agent_rows agC4Records).map displayAgentRow) 1 : ℚ) /
           (colSumInt ((sorted_agent_rows agC4Records).map displayAgentRow) 3 : ℚ)))]] :=
  grand_total_rows_spec.1 agC4Records (by
    intro hemp
    have h1 := length_sortDescBy agentLt (agent_rows agC4Records)
    rw [show sortDescBy agentLt (agent_rows agC4Records) = sorted_agent_rows agC4Records
        from rfl, hemp] at h1
    rw [show (agent_rows agC4Records).length = (agent_data agC4Records).length from by
        rw [agent_rows, List.length_map]] at h1
    have h2 : (agent_data agC4Records).length = 2 := by decide
    rw [h2] at h1
    cases h1)

/-! ## Counter correctness (shared by the validator and DQ-reason reports) -/

theorem lookupCount_counterAdd_self {α : Type} [DecidableEq α] (acc : List (α × Nat)) (v : α) :
    lookupCount (counterAdd acc v) v = Option.some ((lookupCount acc v).getD 0 + 1) := by
  induction acc with
  | nil => simp [counterAdd, lookupCount, List.find?]
  | cons p rest ih =>
    by_cases hp : p.1 = v
    · simp [counterAdd, hp, lookupCount, List.find?]
    · unfold counterAdd
      rw [if_neg hp]
      unfold lookupCount at *
      rw [List.find?_cons_of_neg _ (by simp [hp]), List.find?_cons_of_neg _ (by simp [hp])]
      exact ih

theorem lookupCount_counterAdd_ne {α : Type} [DecidableEq α] (acc : List (α × Nat)) (v w : α)
    (h : w ≠ v) : lookupCount (counterAdd acc v) w = lookupCount acc w := by
  induction acc with
  | nil => simp [counterAdd, lookupCount, List.find?, Ne.symm h]
  | cons p rest ih =>
    by_cases hp : p.1 = v
    · unfold counterAdd
      rw [if_pos hp]
      unfold lookupCount
      rw [List.find?_cons_of_neg _ (by simp only [decide_eq_true_eq]; intro he; apply h; rw [← he, hp]),
        List.find?_cons_of_neg _ (by simp only [decide_eq_true_eq]; intro he; apply h; rw [← he, hp])]
    · unfold counterAdd
      rw [if_neg hp]
      by_cases hw : p.1 = w
      · unfold lookupCount
        rw [List.find?_cons_of_pos _ (by simp [hw]), List.find?_cons_of_pos _ (by simp [hw])]
      · unfold lookupCount at *
        rw [List.find?_cons_of_neg _ (by simp [hw]), List.find?_cons_of_neg _ (by simp [hw])]
        exact ih

theorem keys_counterAdd {α : Type} [DecidableEq α] (acc : List (α × Nat)) (v : α) :
    (counterAdd acc v).map Prod.fst =
      (if v ∈ acc.map Prod.fst then acc.map Prod.fst else acc.map Prod.fst ++ [v]) := by
  induction acc with
  | nil => simp [counterAdd]
  | cons p rest ih =>
    by_cases hp : p.1 = v
    · unfold counterAdd
      rw [if_pos hp]
      simp [hp]
    · unfold counterAdd
      rw [if_neg hp]
      simp only [List.map_cons, ih]
      by_cases hv : v ∈ rest.map Prod.fst
      · rw [if_pos hv, if_pos (by simp [hv])]
      · rw [if_neg hv, if_neg (by simp [hv, Ne.symm hp]), List.cons_append]

theorem nodup_keys_counterOfAux {α : Type} [DecidableEq α] (l : List α)
    (acc : List (α × Nat)) (hnd : (acc.map Prod.fst).Nodup) :
    ((l.foldl counterAdd acc).map Prod.fst).Nodup := by
  induction l generalizing acc with
  | nil => exact hnd
  | cons x xs ih =>
    rw [List.foldl_cons]
    apply ih
    rw [keys_counterAdd]
    split
    · exact hnd
    · rename_i hx
      simp only [List.nodup_append, List.nodup_cons]
      exact ⟨hnd, by simp, by simpa using hx⟩

theorem lookupCount_foldl {α : Type} [DecidableEq α] (l : List α) (acc : List (α × Nat))
    (v : α) :
    lookupCount (l.foldl counterAdd acc) v =
      (match lookupCount acc v with
       | Option.some m => Option.some (m + l.count v)
       | Option.none => if l.count v = 0 then Option.none else Option.some (l.count v)) := by
  induction l generalizing acc with
  | nil =>
    rw [List.foldl_nil]
    rcases lookupCount acc v with _ | m
    · simp
    · simp
  | cons x xs ih =>
    rw [List.foldl_cons, ih (counterAdd acc x)]
    by_cases hx : x = v
    · subst hx
      rw [lookupCount_counterAdd_self, List.count_cons_self]
      rcases lookupCount acc x with _ | m
      · show Option.some (Option.getD Option.none 0 + 1 + xs.count x) =
          (if xs.count x + 1 = 0 then Option.none else Option.some (xs.count x + 1))
        rw [if_neg (by omega)]
        simp only [Option.getD_none]
        congr 1
        omega
      · show Option.some (Option.getD (Option.some m) 0 + 1 + xs.count x) =
          Option.some (m + (xs.count x + 1))
        simp only [Option.getD_some]
        congr 1
        omega
    · rw [lookupCount_counterAdd_ne acc x v (Ne.symm hx),
        List.count_cons_of_ne (fun he => hx he.symm)]

theorem mem_iff_lookupCount {α : Type} [DecidableEq α] (acc : List (α × Nat))
    (hnd : (acc.map Prod.fst).Nodup) (v : α) (n : Nat) :
    (v, n) ∈ acc ↔ lookupCount acc v = Option.some n := by
  induction acc with
  | nil => simp [lookupCount]
  | cons p rest ih =>
    rw [List.map_cons, List.nodup_cons] at hnd
    by_cases hp : p.1 = v
    · unfold lookupCount
      rw [List.find?_cons_of_pos _ (by simp [hp])]
      show (v, n) ∈ p :: rest ↔ Option.some p.2 = Option.some n
      simp only [Option.some.injEq, List.mem_cons]
      constructor
      · intro h
        rcases h with h | h
        · rw [← h]
        · exact absurd (by rw [hp]; exact List.mem_map_of_mem Prod.fst h) hnd.1
      · intro h
        left
        rw [← hp, ← h]
    · unfold lookupCount
      rw [List.find?_cons_of_neg _ (by simp [hp])]
      rw [List.mem_cons]
      constructor
      · intro h
        rcases h with h | h
        · exact absurd (congrArg Prod.fst h).symm hp
        · exact (ih hnd.2).mp h
      · intro h
        exact Or.inr ((ih hnd.2).mpr h)

theorem nodup_keys_counterOf {α : Type} [DecidableEq α] (l : List α) :
    ((counterOf l).map Prod.fst).Nodup :=
  nodup_keys_counterOfAux l [] (by simp)

theorem mem_counterOf_count {α : Type} [DecidableEq α] (l : List α) (v : α) (n : Nat)
    (h : (v, n) ∈ counterOf l) : n = l.count v := by
  have h2 := (mem_iff_lookupCount (counterOf l) (nodup_keys_counterOf l) v n).mp h
  rw [show counterOf l = l.foldl counterAdd [] from rfl, lookupCount_foldl] at h2
  rcases h0 : l.count v with _ | k
  · rw [show lookupCount ([] : List (α × Nat)) v = Option.none from rfl, h0] at h2
    simp at h2
  · rw [show lookupCount ([] : List (α × Nat)) v = Option.none from rfl, h0] at h2
    rw [if_neg (by omega)] at h2
    cases h2
    rfl

theorem mem_keys_counterOf {α : Type} [DecidableEq α] (l : List α) (v : α) :
    v ∈ (counterOf l).map Prod.fst ↔ v ∈ l := by
  constructor
  · intro h
    rw [List.mem_map] at h
    obtain ⟨p, hp, hfst⟩ := h
    have hp2 : (v, p.2) ∈ counterOf l := by
      rw [← hfst]
      exact hp
    have hc := mem_counterOf_count l v p.2 hp2
    have hpos : 0 < l.count v := by
      have h2 := (mem_iff_lookupCount (counterOf l) (nodup_keys_counterOf l) v p.2).mp hp2
      rw [show counterOf l = l.foldl counterAdd [] from rfl, lookupCount_foldl] at h2
      rcases h0 : l.count v with _ | k
      · rw [show lookupCount ([] : List (α × Nat)) v = Option.none from rfl, h0] at h2
        simp at h2
      · omega
    exact List.count_pos_iff.mp hpos
  · intro h
    have hpos : 0 < l.count v := List.count_pos_iff.mpr h
    have h2 : lookupCount (counterOf l) v = Option.some (l.count v) := by
      rw [show counterOf l = l.foldl counterAdd [] from rfl, lookupCount_foldl]
      rw [show lookupCount ([] : List (α × Nat)) v = Option.none from rfl]
      rw [if_neg (by omega)]
    have h3 := (mem_iff_lookupCount (counterOf l) (nodup_keys_counterOf l) v (l.count v)).mpr h2
    exact List.mem_map_of_mem Prod.fst h3

/-- Fold fusion: a conditional counter fold over records equals `counterOf`
of the filtered, mapped list. -/
theorem foldl_counter_filter_map {α : Type} [DecidableEq α] (Q : Record → Prop)
    [DecidablePred Q] (f : Record → α) (l : List Record) (acc : List (α × Nat)) :
    l.foldl (fun a r => if Q r then counterAdd a (f r) else a) acc =
      ((l.filter (fun r => decide (Q r))).map f).foldl counterAdd acc := by
  induction l generalizing acc with
  | nil => rfl
  | cons r rs ih =>
    rw [List.foldl_cons, List.filter_cons]
    by_cases hq : Q r
    · rw [if_pos hq, if_pos (by simpa using hq), List.map_cons, List.foldl_cons, ih]
    · rw [if_neg hq, if_neg (by simpa using hq), ih]

theorem foldl_counter_filter_map_neg {α : Type} [DecidableEq α] (Q : Record → Prop)
    [DecidablePred Q] (f : Record → α) (l : List Record) (acc : List (α × Nat)) :
    l.foldl (fun a r => if Q r then a else counterAdd a (f r)) acc =
      ((l.filter (fun r => !(decide (Q r)))).map f).foldl counterAdd acc := by
  induction l generalizing acc with
  | nil => rfl
  | cons r rs ih =>
    rw [List.foldl_cons, List.filter_cons]
    by_cases hq : Q r
    · rw [if_pos hq, if_neg (by simpa using hq), ih]
    · rw [if_neg hq, if_pos (by simpa using hq), List.map_cons, List.foldl_cons, ih]

theorem count_map_eq_filter_length {α β : Type} [DecidableEq β] (f : α → β) (l : List α)
    (b : β) :
    (l.map f).count b = (l.filter (fun x => decide (f x = b))).length := by
  induction l with
  | nil => rfl
  | cons x xs ih =>
    rw [List.map_cons, List.count_cons, List.filter_cons]
    by_cases hx : f x = b
    · rw [if_pos (by simpa using hx)]
      simp [hx, ih]
    · rw [if_neg (by simpa using hx)]
      simp [hx, ih]

/-! ## C5: lead status issue detection -/

theorem isWhitespace_toLower (c : Char) :
    (Char.toLower c).isWhitespace = c.isWhitespace := by
  simp only [Char.toLower]
  split
  · rename_i h
    obtain ⟨h1, h2⟩ := h
    have hc : c.isWhitespace = false := by
      unfold Char.isWhitespace
      have k1 : decide (c = ' ') = false := decide_eq_false (fun he => by
        rw [he] at h1
        exact absurd h1 (by decide))
      have k2 : decide (c = '\t') = false := decide_eq_false (fun he => by
        rw [he] at h1
        exact absurd h1 (by decide))
      have k3 : decide (c = '\r') = false := decide_eq_false (fun he => by
        rw [he] at h1
        exact absurd h1 (by decide))
      have k4 : decide (c = '\n') = false := decide_eq_false (fun he => by
        rw [he] at h1
        exact absurd h1 (by decide))
      rw [k1, k2, k3, k4]
      rfl
    rw [hc]
    set n := Char.toNat c with hn
    interval_cases n <;> decide
  · rfl

theorem dropWhile_pyLowerList (cs : List Char) :
    (pyLowerList cs).dropWhile Char.isWhitespace =
      pyLowerList (cs.dropWhile Char.isWhitespace) := by
  induction cs with
  | nil => rfl
  | cons c cs ih =>
    simp only [pyLowerList, List.map_cons, List.dropWhile_cons, isWhitespace_toLower]
    by_cases hws : c.isWhitespace = true
    · rw [if_pos hws, if_pos hws]
      exact ih
    · rw [if_neg hws, if_neg hws]
      rfl

theorem rstripWS_pyLowerList (cs : List Char) :
    rstripWS (pyLowerList cs) = pyLowerList (rstripWS cs) := by
  induction cs with
  | nil => rfl
  | cons c cs ih =>
    show rstripWS (Char.toLower c :: pyLowerList cs) = pyLowerList (rstripWS (c :: cs))
    rw [rstripWS_cons_eq, rstripWS_cons_eq, ih]
    cases hr : rstripWS cs with
    | nil =>
      show (if (Char.toLower c).isWhitespace then [] else [Char.toLower c]) =
        pyLowerList (if c.isWhitespace then [] else [c])
      rw [isWhitespace_toLower]
      by_cases hws : c.isWhitespace = true
      · rw [if_pos hws, if_pos hws]
        rfl
      · rw [if_neg hws, if_neg hws]
        rfl
    | cons r rs => rfl

theorem pyStrip_pyLower (s : String) : pyStrip (pyLower s) = pyLower (pyStrip s) := by
  show (⟨rstripWS ((pyLowerList s.data).dropWhile Char.isWhitespace)⟩ : String) =
    ⟨pyLowerList (rstripWS (s.data.dropWhile Char.isWhitespace))⟩
  rw [dropWhile_pyLowerList, rstripWS_pyLowerList]

theorem mkIssue_auto_eq (v : CellValue) (n : Nat) (hinv : isValidStatus v = false) :
    (mkIssue v n).auto_suggestion = specAutoSuggestion v := by
  show (if normalize_lead_status v ≠ v ∧ isValidStatus (normalize_lead_status v) = true
        then Option.some (normalize_lead_status v) else Option.none) = specAutoSuggestion v
  simp only [normalize_lead_status, specAutoSuggestion]
  by_cases g1 : CellValue.truthy v = false ∨ pyStrip (CellValue.pyStr v) = ""
  · rw [if_pos g1, if_neg (fun hcon => hcon.1 rfl)]
    rcases g1 with g1 | g1
    · rcases v with _ | s0 | n0 | d0 | ⟨d0, hh, mi, ss⟩
      · decide
      · have hs0 : s0 = "" := by simpa [CellValue.truthy] using g1
        subst hs0
        decide
      · have hn0 : n0 = 0 := by simpa [CellValue.truthy] using g1
        subst hn0
        decide
      · simp [CellValue.truthy] at g1
      · simp [CellValue.truthy] at g1
    · have hs : pyStrip (pyLower (CellValue.pyStr v)) = "" := by
        rw [pyStrip_pyLower, g1]
        rfl
      simp only [hs]
      decide
  · rw [if_neg g1]
    by_cases hq : (qualifiedPatterns.any (fun p =>
        pyStrip (pyLower (CellValue.pyStr v)) = p ||
        pyStartsWith (pyStrip (pyLower (CellValue.pyStr v))) p)) = true
    · rw [if_pos hq, if_pos hq,
        if_pos (And.intro
          (by
            intro he
            rw [← he] at hinv
            exact absurd hinv (by decide))
          (by decide))]
    · rw [if_neg hq, if_neg hq]
      by_cases hd : (disqualifiedPatterns.any (fun p =>
          pyStrip (pyLower (CellValue.pyStr v)) = p ||
          pyStartsWith (pyStrip (pyLower (CellValue.pyStr v))) p)) = true
      · rw [if_pos hd, if_pos hd,
          if_pos (And.intro
            (by
              intro he
              rw [← he] at hinv
              exact absurd hinv (by decide))
            (by decide))]
      · rw [if_neg hd, if_neg hd, if_neg (fun hcon => hcon.1 rfl)]

theorem perm_insertDescBy {α : Type} (lt : α → α → Bool) (x : α) (l : List α) :
    (insertDescBy lt x l).Perm (x :: l) := by
  induction l with
  | nil => exact List.Perm.refl _
  | cons y ys ih =>
    unfold insertDescBy
    split
    · exact List.Perm.refl _
    · exact (ih.cons y).trans (List.Perm.swap x y ys)

theorem perm_sortDescBy {α : Type} (lt : α → α → Bool) (l : List α) :
    (sortDescBy lt l).Perm l := by
  unfold sortDescBy
  suffices hgen : ∀ (l2 acc : List α),
      (l2.foldl (fun a x => insertDescBy lt x a) acc).Perm (acc ++ l2) by
    simpa using hgen l []
  intro l2
  induction l2 with
  | nil => intro acc; simp
  | cons x xs ih =>
    intro acc
    rw [List.foldl_cons]
    exact (ih (insertDescBy lt x acc)).trans
      (((perm_insertDescBy lt x acc).append_right xs).trans List.perm_middle.symm)

theorem mem_getCloseMatches (word : String) (poss : List String) (n : Nat) (cutoff : ℚ)
    (s : String) (hs : s ∈ getCloseMatches word poss n cutoff) :
    s ∈ poss ∧ cutoff ≤ similarity s word := by
  simp only [getCloseMatches] at hs
  rw [List.mem_map] at hs
  obtain ⟨p, hp, hsnd⟩ := hs
  have hp2 : p ∈ sortDescBy scoreLt (poss.filterMap (fun x =>
      if cutoff ≤ similarity x word then Option.some (similarity x word, x)
      else Option.none)) := List.mem_of_mem_take hp
  have hp3 := (perm_sortDescBy scoreLt _).mem_iff.mp hp2
  rw [List.mem_filterMap] at hp3
  obtain ⟨x, hx, hfx⟩ := hp3
  by_cases hc : cutoff ≤ similarity x word
  · rw [if_pos hc] at hfx
    cases hfx
    have hxs : x = s := hsnd
    subst hxs
    exact ⟨hx, hc⟩
  · rw [if_neg hc] at hfx
    cases hfx

theorem length_getCloseMatches (word : String) (poss : List String) (n : Nat) (cutoff : ℚ) :
    (getCloseMatches word poss n cutoff).length ≤ n := by
  simp only [getCloseMatches]
  rw [List.length_map]
  exact List.length_take_le n _

theorem status_counts_eq (records : List Record) :
    status_counts records =
      counterOf ((records.filter
        (fun r => !(decide (getNone r "Lead Status" = CellValue.none)))).map
        (fun r => getNone r "Lead Status")) :=
  foldl_counter_filter_map_neg (fun r => getNone r "Lead Status" = CellValue.none)
    (fun r => getNone r "Lead Status") records []

theorem issues_eq (records : List Record) :
    (find_lead_status_issues records).1 =
      ((status_counts records).filter (fun p => !(isValidStatus p.1))).map
        (fun p => mkIssue p.1 p.2) := by
  show ((status_counts records).foldl issueStep ([], [])).1 = _
  suffices hgen : ∀ (l : List (CellValue × Nat))
      (acc : List Issue × List (CellValue × CellValue)),
      (l.foldl issueStep acc).1 =
        acc.1 ++ (l.filter (fun p => !(isValidStatus p.1))).map
          (fun p => mkIssue p.1 p.2) by
    rw [hgen (status_counts records) ([], [])]
    rfl
  intro l
  induction l with
  | nil => intro acc; simp
  | cons p ps ih =>
    intro acc
    rw [List.foldl_cons, List.filter_cons]
    by_cases hv : isValidStatus p.1 = true
    · have h1 : issueStep acc p = acc := by
        unfold issueStep
        rw [if_pos hv]
      rw [h1, if_neg (by simp [hv]), ih]
    · have h1 : (issueStep acc p).1 = acc.1 ++ [mkIssue p.1 p.2] := by
        unfold issueStep
        rw [if_neg hv]
      rw [ih, h1, if_pos (by simp [hv]), List.map_cons, List.append_assoc,
        List.singleton_append]

/-- C5: `find_lead_status_issues` reports exactly one issue per distinct exact
Lead Status value outside the accepted set (case-sensitive): the originals are
pairwise distinct, every issue carries an invalid original together with its
exact occurrence count among the records, its fuzzy matches are
`get_close_matches` over the accepted set with `n = 2` and cutoff `0.6` (hence
at most two suggestions, each from the accepted set at similarity at least
`0.6`), its auto-suggestion follows the specification prefix/alias rule, and
its valid options are the accepted set; conversely every invalid value present
in the records yields an issue; in particular the rule sends "Qual" to
"Qualified" and "Disposed" to "Disqualified". -/
theorem find_lead_status_issues_spec (records : List Record) :
    ((find_lead_status_issues records).1.map Issue.original).Nodup
    ∧ (∀ i ∈ (find_lead_status_issues records).1,
        isValidStatus i.original = false
        ∧ i.count = (records.filter
            (fun r => decide (getNone r "Lead Status" = i.original))).length
        ∧ i.fuzzy_matches =
            getCloseMatches (CellValue.pyStr i.original) ACCEPTED_LEAD_STATUS 2 (3 / 5)
        ∧ i.fuzzy_matches.length ≤ 2
        ∧ (∀ s ∈ i.fuzzy_matches, s ∈ ACCEPTED_LEAD_STATUS ∧
            (3 : ℚ) / 5 ≤ similarity s (CellValue.pyStr i.original))
        ∧ i.auto_suggestion = specAutoSuggestion i.original
        ∧ i.valid_options = ACCEPTED_LEAD_STATUS)
    ∧ (∀ v : CellValue, v ≠ CellValue.none → isValidStatus v = false →
        (∃ r ∈ records, getNone r "Lead Status" = v) →
        ∃ i ∈ (find_lead_status_issues records).1, i.original = v)
    ∧ specAutoSuggestion (CellValue.str "Qual") = Option.some (CellValue.str "Qualified")
    ∧ specAutoSuggestion (CellValue.str "Disposed") =
        Option.some (CellValue.str "Disqualified") := by
  have hL : status_counts records =
      counterOf ((records.filter
        (fun r => !(decide (getNone r "Lead Status" = CellValue.none)))).map
        (fun r => getNone r "Lead Status")) := status_counts_eq records
  refine ⟨?_, ?_, ?_, by decide, by decide⟩
  · rw [issues_eq]
    have horig : (((status_counts records).filter (fun p => !(isValidStatus p.1))).map
        (fun p => mkIssue p.1 p.2)).map Issue.original =
        ((status_counts records).filter (fun p => !(isValidStatus p.1))).map Prod.fst := by
      rw [List.map_map]
      rfl
    rw [horig]
    have hsub : ((status_counts records).filter
        (fun p => !(isValidStatus p.1))).map Prod.fst
        |>.Sublist ((status_counts records).map Prod.fst) :=
      (List.filter_sublist _).map Prod.fst
    apply List.Nodup.sublist hsub
    rw [hL]
    exact nodup_keys_counterOf _
  · intro i hi
    rw [issues_eq] at hi
    rw [List.mem_map] at hi
    obtain ⟨p, hpfil, hpi⟩ := hi
    rw [List.mem_filter] at hpfil
    obtain ⟨hpsc, hpinv⟩ := hpfil
    have hinv : isValidStatus p.1 = false := by
      rcases h0 : isValidStatus p.1 with _ | _
      · rfl
      · rw [h0] at hpinv
        exact absurd hpinv (by decide)
    have horig : i.original = p.1 := by
      rw [← hpi]
      rfl
    have hcnt : i.count = p.2 := by
      rw [← hpi]
      rfl
    have hfuz : i.fuzzy_matches =
        getCloseMatches (CellValue.pyStr p.1) ACCEPTED_LEAD_STATUS 2 (3 / 5) := by
      rw [← hpi]
      rfl
    have hopt : i.valid_options = ACCEPTED_LEAD_STATUS := by
      rw [← hpi]
      rfl
    have hvnone : p.1 ≠ CellValue.none := by
      have hk : p.1 ∈ ((records.filter
          (fun r => !(decide (getNone r "Lead Status" = CellValue.none)))).map
          (fun r => getNone r "Lead Status")) := by
        rw [← mem_keys_counterOf, ← hL]
        exact List.mem_map_of_mem Prod.fst hpsc
      rw [List.mem_map] at hk
      obtain ⟨r, hrfil, hrv⟩ := hk
      rw [List.mem_filter] at hrfil
      intro hcon
      obtain ⟨hr1, hr2⟩ := hrfil
      rw [hcon] at hrv
      rw [decide_eq_true hrv] at hr2
      exact absurd hr2 (by decide)
    have hcount : p.2 = (records.filter
        (fun r => decide (getNone r "Lead Status" = p.1))).length := by
      have h1 : (p.1, p.2) ∈ counterOf ((records.filter
          (fun r => !(decide (getNone r "Lead Status" = CellValue.none)))).map
          (fun r => getNone r "Lead Status")) := by
        rw [← hL]
        exact hpsc
      have h2 := mem_counterOf_count _ _ _ h1
      rw [count_map_eq_filter_length, List.filter_filter] at h2
      rw [h2]
      congr 1
      apply List.filter_congr
      intro r _
      by_cases hrv : getNone r "Lead Status" = p.1
      · rw [decide_eq_true hrv, decide_eq_false (by rw [hrv]; exact hvnone)]
        rfl
      · rw [decide_eq_false hrv]
        rfl
    rw [horig, hcnt, hfuz, hopt]
    refine ⟨hinv, hcount, rfl, length_getCloseMatches _ _ _ _, ?_, ?_, rfl⟩
    · intro s hsmem
      exact mem_getCloseMatches _ _ _ _ s hsmem
    · rw [← horig, ← hpi]
      show (mkIssue p.1 p.2).auto_suggestion = specAutoSuggestion (mkIssue p.1 p.2).original
      exact mkIssue_auto_eq p.1 p.2 hinv
  · intro v hvnone hvinv hvrec
    obtain ⟨r, hr, hrv⟩ := hvrec
    have hkv : v ∈ ((records.filter
        (fun r => !(decide (getNone r "Lead Status" = CellValue.none)))).map
        (fun r => getNone r "Lead Status")) := by
      rw [List.mem_map]
      refine ⟨r, ?_, hrv⟩
      rw [List.mem_filter]
      refine ⟨hr, ?_⟩
      rw [decide_eq_false (by rw [hrv]; exact hvnone)]
      rfl
    rw [← mem_keys_counterOf, ← hL, List.mem_map] at hkv
    obtain ⟨p, hpsc, hpv⟩ := hkv
    refine ⟨mkIssue p.1 p.2, ?_, ?_⟩
    · rw [issues_eq, List.mem_map]
      refine ⟨p, ?_, rfl⟩
      rw [List.mem_filter]
      refine ⟨hpsc, ?_⟩
      rw [show isValidStatus p.1 = false from by rw [hpv, hvinv]]
      rfl
    · show p.1 = v
      exact hpv

/-- C5 witness: on a dataset with five "Qual" records the detector emits an
issue whose original value is "Qual". -/
theorem find_lead_status_issues_spec_witness :
    ∃ i ∈ (find_lead_status_issues exC5Records).1,
      i.original = CellValue.str "Qual" := by
  apply (find_lead_status_issues_spec exC5Records).2.2.1 (CellValue.str "Qual")
    (by decide) (by decide)
  exact ⟨[("Lead Status", CellValue.str "Qual")], by decide, by decide⟩

/-! ## C8: DQ-reason report -/

theorem pairwise_insertDescBy {α : Type} (lt : α → α → Bool)
    (hasym : ∀ a b, lt a b = true → lt b a = false)
    (htrans3 : ∀ a b c, lt a b = true → lt a c = false → lt b c = false)
    (x : α) (l : List α) (hl : l.Pairwise (fun a b => lt a b = false)) :
    (insertDescBy lt x l).Pairwise (fun a b => lt a b = false) := by
  induction l with
  | nil => simp [insertDescBy]
  | cons y ys ih =>
    unfold insertDescBy
    split
    · rename_i hyx
      rw [List.pairwise_cons]
      constructor
      · intro z hz
        rcases List.mem_cons.mp hz with hz | hz
        · subst hz
          exact hasym _ _ hyx
        · exact htrans3 _ x z hyx ((List.pairwise_cons.mp hl).1 z hz)
      · exact hl
    · rename_i hyx
      rw [Bool.not_eq_true] at hyx
      rw [List.pairwise_cons] at hl ⊢
      obtain ⟨hy, hys⟩ := hl
      constructor
      · intro z hz
        rcases List.mem_cons.mp ((perm_insertDescBy lt x ys).mem_iff.mp hz) with hz | hz
        · subst hz
          exact hyx
        · exact hy z hz
      · exact ih hys

theorem pairwise_sortDescBy {α : Type} (lt : α → α → Bool)
    (hasym : ∀ a b, lt a b = true → lt b a = false)
    (htrans3 : ∀ a b c, lt a b = true → lt a c = false → lt b c = false)
    (l : List α) : (sortDescBy lt l).Pairwise (fun a b => lt a b = false) := by
  unfold sortDescBy
  suffices hgen : ∀ (l2 acc : List α), acc.Pairwise (fun a b => lt a b = false) →
      (l2.foldl (fun a x => insertDescBy lt x a) acc).Pairwise
        (fun a b => lt a b = false) by
    exact hgen l [] (by simp)
  intro l2
  induction l2 with
  | nil => intro acc hacc; exact hacc
  | cons x xs ih =>
    intro acc hacc
    rw [List.foldl_cons]
    exact ih (insertDescBy lt x acc) (pairwise_insertDescBy lt hasym htrans3 x acc hacc)

theorem reason_counts_eq (records : List Record) :
    reason_counts records =
      counterOf ((records.filter (fun r =>
        decide (normalize (getD r "Lead Status" (CellValue.str "")) = "disqualified"))).map
        (fun r => getD r "DQ Reason" (CellValue.str "(Blank)"))) :=
  foldl_counter_filter_map
    (fun r => normalize (getD r "Lead Status" (CellValue.str "")) = "disqualified")
    (fun r => getD r "DQ Reason" (CellValue.str "(Blank)")) records []

theorem reason_rows_length_pos (records : List Record) (row : DqRow)
    (hrow : row ∈ reason_rows records) : 0 < records.length := by
  unfold reason_rows at hrow
  rw [List.mem_map] at hrow
  obtain ⟨p, hp, hrp⟩ := hrow
  have hk : p.1 ∈ (records.filter (fun r =>
      decide (normalize (getD r "Lead Status" (CellValue.str "")) = "disqualified"))).map
      (fun r => getD r "DQ Reason" (CellValue.str "(Blank)")) := by
    rw [← mem_keys_counterOf, ← reason_counts_eq]
    exact List.mem_map_of_mem Prod.fst hp
  rw [List.mem_map] at hk
  obtain ⟨r, hrfil, hrv⟩ := hk
  rw [List.mem_filter] at hrfil
  exact List.length_pos_of_mem hrfil.1

/-- C8: in the DQ-reason report, each reason row counts exactly the records
whose normalized Lead Status is "disqualified" and whose DQ Reason is that
row's reason, and its error share is that count divided by the total number
of records given to the report (all statuses in the denominator); the data
rows are sorted by error share descending; and when data rows exist the
emitted report is the header, the sorted data rows, and a Grand Total row
whose count is the sum of the data-row counts and whose error share is that
sum divided by the same total. -/
theorem generate_dq_reason_report_spec (records : List Record) :
    (∀ row ∈ sorted_reason_rows records,
      row.count = (records.filter (fun r =>
          decide (normalize (getD r "Lead Status" (CellValue.str "")) = "disqualified")
          && decide (getD r "DQ Reason" (CellValue.str "(Blank)") = row.reason))).length
      ∧ row.pct = (row.count : ℚ) / (records.length : ℚ))
    ∧ (sorted_reason_rows records).Pairwise (fun a b => b.pct ≤ a.pct)
    ∧ (sorted_reason_rows records ≠ [] →
        generate_dq_reason_report records =
          [CellValue.str "DQ Reason", CellValue.str "Disqualified", CellValue.str "Error%"]
            :: ((sorted_reason_rows records).map displayDqRow ++
              [[CellValue.str "Grand Total",
                CellValue.intV (((sorted_reason_rows records).map DqRow.count).sum : ℤ),
                CellValue.str (fmtPct
                  ((((sorted_reason_rows records).map DqRow.count).sum : ℚ) /
                    (records.length : ℚ)))]])) := by
  refine ⟨?_, ?_, ?_⟩
  · intro row hrow
    have hrow2 : row ∈ reason_rows records :=
      (perm_sortDescBy dqLt (reason_rows records)).mem_iff.mp hrow
    have hN : 0 < records.length := reason_rows_length_pos records row hrow2
    unfold reason_rows at hrow2
    rw [List.mem_map] at hrow2
    obtain ⟨p, hp, hrp⟩ := hrow2
    have hreason : row.reason = p.1 := by
      rw [← hrp]
    have hcnt : row.count = p.2 := by
      rw [← hrp]
    have hpct : row.pct =
        if 0 < records.length then (p.2 : ℚ) / (records.length : ℚ) else 0 := by
      rw [← hrp]
    rw [reason_counts_eq] at hp
    have h2 := mem_counterOf_count _ _ _ hp
    rw [count_map_eq_filter_length, List.filter_filter] at h2
    constructor
    · rw [hcnt, hreason, h2]
      congr 1
      apply List.filter_congr
      intro r _
      exact Bool.and_comm _ _
    · rw [hpct, if_pos hN, hcnt]
  · have hpw := pairwise_sortDescBy dqLt
      (by
        intro a b hab
        simp only [dqLt, decide_eq_true_eq] at hab
        simp only [dqLt, decide_eq_false_iff_not]
        exact asymm hab)
      (by
        intro a b c hab hac
        simp only [dqLt, decide_eq_true_eq] at hab
        simp only [dqLt, decide_eq_false_iff_not] at hac ⊢
        intro hbc
        exact absurd hab (asymm (lt_of_lt_of_le hbc (not_lt.mp hac))))
      (reason_rows records)
    apply hpw.imp
    intro a b hab
    simp only [dqLt, decide_eq_false_iff_not] at hab
    exact not_lt.mp hab
  · intro hne
    have hN : 0 < records.length := by
      obtain ⟨row, hrow⟩ := List.exists_mem_of_ne_nil _ hne
      exact reason_rows_length_pos records row
        ((perm_sortDescBy dqLt (reason_rows records)).mem_iff.mp hrow)
    show (_ : List (List CellValue)) = _
    unfold generate_dq_reason_report reason_rows_with_total
    rw [if_neg hne, List.map_append]
    show _ :: ((sorted_reason_rows records).map displayDqRow ++
      [[CellValue.str "Grand Total",
        CellValue.intV (((sorted_reason_rows records).map DqRow.count).sum : ℤ),
        CellValue.str (fmtPct
          (if 0 < records.length then
            ((((sorted_reason_rows records).map DqRow.count).sum : Nat) : ℚ) /
              (records.length : ℚ)
          else 0))]]) = _
    rw [if_pos hN]

/-- C8 witness: the report for a two-record dataset with one disqualified
record has the Grand Total shape established by the specification theorem. -/
theorem generate_dq_reason_report_spec_witness :
    sorted_reason_rows exC8Records ≠ [] ∧
    generate_dq_reason_report exC8Records =
      [CellValue.str "DQ Reason", CellValue.str "Disqualified", CellValue.str "Error%"]
        :: ((sorted_reason_rows exC8Records).map displayDqRow ++
          [[CellValue.str "Grand Total",
            CellValue.intV (((sorted_reason_rows exC8Records).map DqRow.count).sum : ℤ),
            CellValue.str (fmtPct
              ((((sorted_reason_rows exC8Records).map DqRow.count).sum : ℚ) /
                (exC8Records.length : ℚ)))]]) := by
  have hne : sorted_reason_rows exC8Records ≠ [] := by
    have h1 : (sorted_reason_rows exC8Records).length = 1 := by
      show (sortDescBy dqLt (reason_rows exC8Records)).length = 1
      rw [length_sortDescBy]
      unfold reason_rows
      rw [List.length_map]
      decide
    intro hcon
    rw [hcon] at h1
    exact absurd h1 (by decide)
  exact ⟨hne, (generate_dq_reason_report_spec exC8Records).2.2 hne⟩

end QAReport
